import Mathlib

/-!
MindSpace quiz: scoring and recommendation (`src/js/quiz.js`).

A shallow embedding of `QuizSystem.calculateResults` and of the state it reads.

* The category scores and the percentage shares are JavaScript numbers.  Addition, division,
  multiplication and subtraction are embedded with their IEEE 754 binary64 meaning: the exact
  rational result rounded to the nearest representable value, ties to the even significand, with
  overflow to an infinity.  Sums of weights are exact only below `2 ^ 53`, and `55 / 45` is a
  boundary of the decision, so the rounding is part of the behaviour and is not abstracted away.
* A configured weight is a non-negative integer literal; its number value is the binary64
  value nearest to the integer written.
* Objects used as string-keyed tables (`quizData`, `questions`, `weight`) are association lists in
  insertion order; the keys of a JavaScript object are pairwise distinct.  Property lookup is
  own-property lookup: identifiers inherited from `Object.prototype` are outside the model.
-/

namespace QuizSystem

/-! ## JavaScript numbers -/

/-- A JavaScript number: `NaN`, an infinity, or a finite binary64 value held as an exact
rational.  The sign of zero is not tracked (both zeros compare equal and round to `0`). -/
inductive JSNum where
  | nan
  | posInf
  | negInf
  | fin (q : ℚ)
  deriving DecidableEq

/-- Floor of the base-2 logarithm by repeated halving; the first argument bounds the depth. -/
def ilog2Aux : Nat → Nat → Nat
  | 0, _ => 0
  | fuel + 1, n => if n < 2 then 0 else ilog2Aux fuel (n / 2) + 1

/-- Floor of the base-2 logarithm of `n` (and `0` for `n = 0`). -/
def ilog2 (n : Nat) : Nat := ilog2Aux n n

/-- Nearest integer, a tie going to the even neighbour. -/
def roundHalfEven (y : ℚ) : ℤ :=
  if y - ⌊y⌋ < 1 / 2 then ⌊y⌋
  else if 1 / 2 < y - ⌊y⌋ then ⌊y⌋ + 1
  else if ⌊y⌋ % 2 = 0 then ⌊y⌋ else ⌊y⌋ + 1

/-- Exponent, counted from `-1074`, of the step between neighbouring binary64 values at
magnitude `x ≥ 0`: the significand has 53 bits, and below `2 ^ (-1022)` the step stays fixed. -/
def ulpExp (x : ℚ) : ℕ := ilog2 ⌊x * 2 ^ 1074⌋₊ - 52

/-- Distance between neighbouring binary64 values at magnitude `x ≥ 0`. -/
def ulp (x : ℚ) : ℚ := 2 ^ ulpExp x / 2 ^ 1074

/-- The multiple of `ulp x` nearest to `x ≥ 0`, ties to even (exponent range unbounded above). -/
def nearest (x : ℚ) : ℚ := roundHalfEven (x / ulp x) * ulp x

/-- Rounding of an exact result to binary64, round-to-nearest-even, overflowing to an infinity. -/
def roundDouble (x : ℚ) : JSNum :=
  if x < 0 then
    if 2 ^ 1024 ≤ nearest (-x) then .negInf else .fin (-nearest (-x))
  else
    if 2 ^ 1024 ≤ nearest x then .posInf else .fin (nearest x)

namespace JSNum

/-- The number value of a non-negative integer that binary64 represents, such as the literals
`0`, `10`, `70` and `100`. -/
def ofNat (n : Nat) : JSNum := .fin n

/-- JavaScript `a + b`. -/
def add : JSNum → JSNum → JSNum
  | nan, _ => nan
  | _, nan => nan
  | fin a, fin b => roundDouble (a + b)
  | fin _, posInf => posInf
  | fin _, negInf => negInf
  | posInf, fin _ => posInf
  | negInf, fin _ => negInf
  | posInf, posInf => posInf
  | posInf, negInf => nan
  | negInf, posInf => nan
  | negInf, negInf => negInf

/-- JavaScript `a / b`. -/
def div : JSNum → JSNum → JSNum
  | nan, _ => nan
  | _, nan => nan
  | fin a, fin b =>
    if b = 0 then (if a = 0 then nan else if 0 < a then posInf else negInf)
    else roundDouble (a / b)
  | fin _, posInf => fin 0
  | fin _, negInf => fin 0
  | posInf, fin b => if 0 ≤ b then posInf else negInf
  | negInf, fin b => if 0 ≤ b then negInf else posInf
  | posInf, posInf => nan
  | posInf, negInf => nan
  | negInf, posInf => nan
  | negInf, negInf => nan

/-- JavaScript `a * b`. -/
def mul : JSNum → JSNum → JSNum
  | nan, _ => nan
  | _, nan => nan
  | fin a, fin b => roundDouble (a * b)
  | fin a, posInf => if a = 0 then nan else if 0 < a then posInf else negInf
  | fin a, negInf => if a = 0 then nan else if 0 < a then negInf else posInf
  | posInf, fin b => if b = 0 then nan else if 0 < b then posInf else negInf
  | negInf, fin b => if b = 0 then nan else if 0 < b then negInf else posInf
  | posInf, posInf => posInf
  | posInf, negInf => negInf
  | negInf, posInf => negInf
  | negInf, negInf => posInf

/-- JavaScript `a - b`. -/
def sub : JSNum → JSNum → JSNum
  | nan, _ => nan
  | _, nan => nan
  | fin a, fin b => roundDouble (a - b)
  | fin _, posInf => negInf
  | fin _, negInf => posInf
  | posInf, fin _ => posInf
  | negInf, fin _ => negInf
  | posInf, posInf => nan
  | posInf, negInf => posInf
  | negInf, posInf => negInf
  | negInf, negInf => nan

/-- JavaScript `Math.abs`. -/
def abs : JSNum → JSNum
  | nan => nan
  | posInf => posInf
  | negInf => posInf
  | fin a => fin |a|

/-- JavaScript `a <= b`: false as soon as an operand is `NaN`. -/
def le : JSNum → JSNum → Bool
  | nan, _ => false
  | _, nan => false
  | fin a, fin b => decide (a ≤ b)
  | negInf, _ => true
  | _, posInf => true
  | posInf, _ => false
  | _, negInf => false

/-- JavaScript `a > b`: false as soon as an operand is `NaN`. -/
def gt : JSNum → JSNum → Bool
  | nan, _ => false
  | _, nan => false
  | fin a, fin b => decide (b < a)
  | posInf, posInf => false
  | posInf, _ => true
  | negInf, _ => false
  | fin _, posInf => false
  | fin _, negInf => true

/-- JavaScript `a >= b`: false as soon as an operand is `NaN`. -/
def ge (a b : JSNum) : Bool := le b a

/-- JavaScript `Math.round`: the integer `⌊x + 1/2⌋`; `NaN` and the infinities are returned
unchanged. -/
def round : JSNum → JSNum
  | fin a => fin ⌊a + 1 / 2⌋
  | x => x

end JSNum

/-! ## Quiz configuration and answers -/

/-- One entry of a `weight` table, such as `{ terapia: 3, evolutiva: 1 }`.  A field that is not
written in the table is `none` (JavaScript `undefined`). -/
structure WeightVector where
  terapia : Option Nat
  evolutiva : Option Nat
  deriving DecidableEq, Repr

/-- Configuration of one question: its `weight` table, from answer key to weight vector. -/
structure QuestionConfig where
  weight : List (String × WeightVector)
  deriving DecidableEq, Repr

/-- The part of `quizConfig` that `calculateResults` reads: the `questions` table. -/
structure QuizConfig where
  questions : List (String × QuestionConfig)
  deriving DecidableEq, Repr

/-- The `questions` literal assigned to `this.quizConfig` in `init`. -/
def quizConfig : QuizConfig where
  questions :=
    [("q1", ⟨[("stress", ⟨some 3, some 1⟩),
              ("confused", ⟨some 2, some 2⟩),
              ("blocked", ⟨some 2, some 3⟩),
              ("curious", ⟨some 1, some 3⟩)]⟩),
     ("q2", ⟨[("wellbeing", ⟨some 3, some 1⟩),
              ("skills", ⟨some 1, some 3⟩),
              ("relationships", ⟨some 3, some 2⟩),
              ("performance", ⟨some 2, some 3⟩)]⟩),
     ("q3", ⟨[("intensive", ⟨some 2, some 3⟩),
              ("moderate", ⟨some 3, some 3⟩),
              ("light", ⟨some 2, some 2⟩)]⟩)]

/-- The answers `this.quizData`: question key and selected answer key, in insertion order. -/
abbrev QuizData := List (String × String)

/-- The local object `scores` of `calculateResults`: two JavaScript numbers. -/
structure Scores where
  terapia : JSNum
  evolutiva : JSNum
  deriving DecidableEq

/-- The value of `recommendation`: the strings `both`, `terapia`, `evolutiva`. -/
inductive Recommendation where
  | both
  | terapia
  | evolutiva
  deriving DecidableEq, Repr

/-- The confidence labels known to the program; `calculateResults` assigns `moderate` or `high`,
`low` appears only in the display tables. -/
inductive Confidence where
  | low
  | moderate
  | high
  deriving DecidableEq, Repr

/-- The `scores` object of the result: the two displayed percentages. -/
structure ResultScores where
  terapia : JSNum
  evolutiva : JSNum
  deriving DecidableEq

/-- The `details` object of the result. -/
structure Details where
  stress : Bool
  growth : Bool
  emotional : Bool
  skills : Bool
  commitment : Option String
  deriving DecidableEq, Repr

/-- The record assigned to `this.results`. -/
structure Results where
  recommendation : Recommendation
  confidence : Confidence
  explanation : String
  scores : ResultScores
  details : Details
  deriving DecidableEq

/-! ## `calculateResults` -/

/-- The operand `weight.terapia || 0` of `+=`: the number value of the weight, which is written
as a non-negative integer literal and so is the binary64 value nearest to it, and `0` when the
weight vector has no such property. -/
def weightValue (w : Option Nat) : JSNum := roundDouble ((w.getD 0 : ℕ) : ℚ)

/-- Body of the `forEach` callback: the contribution of one key of `quizData`.  The keys are
question identifiers such as `q1`; an identifier inherited from `Object.prototype` (for example
`constructor`), for which `this.quizConfig.questions[questionKey]` is an object without `weight`
and the callback raises a `TypeError`, is outside the model. -/
def addAnswer (config : QuizConfig) (quizData : QuizData) (scores : Scores)
    (questionKey : String) : Scores :=
  match quizData.lookup questionKey with
  | none => scores
  | some answer =>
    match config.questions.lookup questionKey with
    | none => scores
    | some questionConfig =>
      match questionConfig.weight.lookup answer with
      | none => scores
      | some w =>
        { terapia := scores.terapia.add (weightValue w.terapia)
          evolutiva := scores.evolutiva.add (weightValue w.evolutiva) }

/-- The loop `Object.keys(this.quizData).forEach(...)` started from `{terapia: 0, evolutiva: 0}`. -/
def accumulateScores (config : QuizConfig) (quizData : QuizData) : Scores :=
  (quizData.map Prod.fst).foldl (addAnswer config quizData) ⟨JSNum.ofNat 0, JSNum.ofNat 0⟩

/-- The expression `(score / totalScore) * 100`. -/
def percentage (score totalScore : JSNum) : JSNum :=
  (score.div totalScore).mul (JSNum.ofNat 100)

/-- The test `Math.abs(terapiaPercentage - evolutivaPercentage) <= 10`. -/
def closeMatch (terapiaPercentage evolutivaPercentage : JSNum) : Bool :=
  ((terapiaPercentage.sub evolutivaPercentage).abs).le (JSNum.ofNat 10)

/-- The three-way branch that assigns `recommendation`, `confidence` and `explanation`. -/
def recommend (terapiaPercentage evolutivaPercentage : JSNum) :
    Recommendation × Confidence × String :=
  if closeMatch terapiaPercentage evolutivaPercentage then
    (.both, .moderate,
      "I tuoi bisogni sono equilibrati tra supporto emotivo e crescita personale. Entrambi i percorsi possono essere utili per te.")
  else if terapiaPercentage.gt evolutivaPercentage then
    (.terapia, if terapiaPercentage.ge (JSNum.ofNat 70) then .high else .moderate,
      "Il tuo profilo indica che potresti beneficiare principalmente di supporto psicologico per affrontare le sfide attuali.")
  else
    (.evolutiva, if evolutivaPercentage.ge (JSNum.ofNat 70) then .high else .moderate,
      "Il tuo profilo suggerisce che sei pronto/a per un percorso di crescita e sviluppo personale.")

/-- The `details` object built from `quizData`. -/
def details (quizData : QuizData) : Details where
  stress := quizData.lookup "q1" == some "stress"
  growth := quizData.lookup "q1" == some "curious" || quizData.lookup "q1" == some "blocked"
  emotional := quizData.lookup "q2" == some "wellbeing" ||
    quizData.lookup "q2" == some "relationships"
  skills := quizData.lookup "q2" == some "skills" || quizData.lookup "q2" == some "performance"
  commitment := quizData.lookup "q3"

/-- Everything after the loop: percentages, decision and the result record, from the scores. -/
def classify (scores : Scores) (quizData : QuizData) : Results :=
  let totalScore := scores.terapia.add scores.evolutiva
  let terapiaPercentage := percentage scores.terapia totalScore
  let evolutivaPercentage := percentage scores.evolutiva totalScore
  let d := recommend terapiaPercentage evolutivaPercentage
  { recommendation := d.1
    confidence := d.2.1
    explanation := d.2.2
    scores := ⟨terapiaPercentage.round, evolutivaPercentage.round⟩
    details := details quizData }

/-- The state of `QuizSystem` that the wizard and `calculateResults` use.  `results` is `none`
while it holds the empty object assigned by `init` and `resetQuiz`. -/
structure QuizState where
  currentStep : Nat
  totalSteps : Nat
  quizData : QuizData
  results : Option Results
  quizConfig : QuizConfig

/-- The method `calculateResults`: it reads `quizData` and `quizConfig` and assigns `results`. -/
def calculateResults (self : QuizState) : QuizState :=
  { self with
    results := some (classify (accumulateScores self.quizConfig self.quizData) self.quizData) }

/-! ## Notions used to state the properties -/

/-- A score vector as the specification has it: one non-negative integer for each category,
with exact arithmetic. -/
structure ScoreVector where
  terapia : Nat
  evolutiva : Nat
  deriving DecidableEq, Repr

/-- The `scores` object whose two properties hold the integers of a score vector. -/
def ScoreVector.toScores (v : ScoreVector) : Scores :=
  ⟨JSNum.ofNat v.terapia, JSNum.ofNat v.evolutiva⟩

/-- Component-wise sum of two score vectors. -/
def ScoreVector.add (a b : ScoreVector) : ScoreVector :=
  ⟨a.terapia + b.terapia, a.evolutiva + b.evolutiva⟩

/-- The weight vector an entry of `quizData` selects: the question must be configured and the
answer key must be in its `weight` table. -/
def selectedWeight (config : QuizConfig) (entry : String × String) : Option WeightVector :=
  (config.questions.lookup entry.1).bind fun questionConfig => questionConfig.weight.lookup entry.2

/-- The score vector as the specification words it: for each category, the sum of the selected
weights over the answered questions whose answer key is in the weight table. -/
def scoreSpec (config : QuizConfig) (quizData : QuizData) : ScoreVector :=
  { terapia := ((quizData.filterMap (selectedWeight config)).map fun w => w.terapia.getD 0).sum
    evolutiva := ((quizData.filterMap (selectedWeight config)).map fun w => w.evolutiva.getD 0).sum }

/-- The exact sums of the selected weights are below `2 ^ 53`, the range in which binary64
addition of non-negative integers does not round. -/
def ExactSums (config : QuizConfig) (quizData : QuizData) : Prop :=
  (scoreSpec config quizData).terapia < 2 ^ 53 ∧ (scoreSpec config quizData).evolutiva < 2 ^ 53

instance (config : QuizConfig) (quizData : QuizData) : Decidable (ExactSums config quizData) :=
  inferInstanceAs (Decidable (_ ∧ _))

/-- The keys of `quizData` are pairwise distinct, as the keys of a JavaScript object are. -/
def DistinctKeys (quizData : QuizData) : Prop := (quizData.map Prod.fst).Nodup

instance (quizData : QuizData) : Decidable (DistinctKeys quizData) :=
  inferInstanceAs (Decidable (quizData.map Prod.fst).Nodup)

/-- The question keys two answer sets give an answer to are disjoint. -/
def DisjointKeys (a b : QuizData) : Prop := ∀ k ∈ a.map Prod.fst, k ∉ b.map Prod.fst

instance (a b : QuizData) : Decidable (DisjointKeys a b) :=
  inferInstanceAs (Decidable (∀ k ∈ a.map Prod.fst, k ∉ b.map Prod.fst))

/-- The configuration restricted to the questions that `quizData` answers. -/
def answeredOnly (config : QuizConfig) (quizData : QuizData) : QuizConfig :=
  ⟨config.questions.filter fun q => (quizData.lookup q.1).isSome⟩

/-- The answer set without its entry for question `q`. -/
def withoutQuestion (quizData : QuizData) (q : String) : QuizData :=
  quizData.filter fun e => e.1 != q

/-- Contribution of one entry, read off the entry itself. -/
def addEntry (config : QuizConfig) (scores : Scores) (entry : String × String) : Scores :=
  match selectedWeight config entry with
  | none => scores
  | some w =>
    { terapia := scores.terapia.add (weightValue w.terapia)
      evolutiva := scores.evolutiva.add (weightValue w.evolutiva) }

/-- The percentage share as the specification defines it, without any rounding:
score ÷ total of all scores × 100. -/
def exactShare (score total : Nat) : ℚ := (score : ℚ) / total * 100

/-- The binary64 value that `(score / totalScore) * 100` takes for a positive `totalScore`. -/
def pct (score total : Nat) : ℚ := nearest (nearest ((score : ℚ) / total) * 100)


/-- The keys of the local object `scores`: the literal `{ terapia: 0, evolutiva: 0 }` fixes them
and the loop only assigns to these two. -/
def Scores.keys (_ : Scores) : List String := ["terapia", "evolutiva"]

/-- The categories a weight vector gives a weight to. -/
def WeightVector.categories (w : WeightVector) : List String :=
  (if w.terapia.isSome then ["terapia"] else []) ++
    (if w.evolutiva.isSome then ["evolutiva"] else [])

/-- The categories referenced by some weight vector of some question of the configuration. -/
def referencedCategories (config : QuizConfig) : List String :=
  (config.questions.flatMap fun q => q.2.weight.flatMap fun a => a.2.categories).dedup

/-! ## The quiz wizard -/

/-- The assignment `obj[key] = value` on a table: an existing key keeps its place and takes the
new value, a new key is added at the end. -/
def setKey : List (String × String) → String → String → List (String × String)
  | [], key, value => [(key, value)]
  | (k, v) :: rest, key, value =>
    if k == key then (k, value) :: rest else (k, v) :: setKey rest key value

/-- The fields `init` assigns: step 1 of 3, no answers, an empty result, the configuration. -/
def init : QuizState :=
  { currentStep := 1, totalSteps := 3, quizData := [], results := none, quizConfig := quizConfig }

/-- The key of the template literal built from the step number: `q1`, `q2`, ... -/
def stepKey (step : Nat) : String := "q" ++ toString step

/-- The method `validateCurrentStep`; `selectedOption` is the value of the radio button checked
in the current step of the form, if there is one. -/
def validateCurrentStep (selectedOption : Option String) : Bool := selectedOption.isSome

/-- The method `saveCurrentStepData`. -/
def saveCurrentStepData (self : QuizState) (selectedOption : Option String) : QuizState :=
  match selectedOption with
  | some value => { self with quizData := setKey self.quizData (stepKey self.currentStep) value }
  | none => self

/-- The method `nextStep`. -/
def nextStep (self : QuizState) (selectedOption : Option String) : QuizState :=
  if validateCurrentStep selectedOption then
    let saved := saveCurrentStepData self selectedOption
    if saved.currentStep < saved.totalSteps then
      { saved with currentStep := saved.currentStep + 1 }
    else saved
  else self

/-- The method `prevStep`. -/
def prevStep (self : QuizState) : QuizState :=
  if self.currentStep > 1 then { self with currentStep := self.currentStep - 1 } else self

/-- The method `resetQuiz` (its assignments to the state; the rest resets the page). -/
def resetQuiz (self : QuizState) : QuizState :=
  { self with currentStep := 1, quizData := [], results := none }

/-- The method `openModal`: the quiz is reset unless it is at its first step. -/
def openModal (self : QuizState) : QuizState :=
  if self.currentStep ≠ 1 then resetQuiz self else self

/-- The method `submitQuiz`. -/
def submitQuiz (self : QuizState) (selectedOption : Option String) : QuizState :=
  if validateCurrentStep selectedOption then
    calculateResults (saveCurrentStepData self selectedOption)
  else self

/-- A call of a method of the wizard, with the radio button checked in the current step at
the time of the call where the method reads it. -/
inductive Event where
  | openModal
  | nextStep (selectedOption : Option String)
  | prevStep
  | resetQuiz
  | submitQuiz (selectedOption : Option String)

/-- The effect of one call on the state. -/
def step (self : QuizState) : Event → QuizState
  | .openModal => openModal self
  | .nextStep selectedOption => nextStep self selectedOption
  | .prevStep => prevStep self
  | .resetQuiz => resetQuiz self
  | .submitQuiz selectedOption => submitQuiz self selectedOption

/-- The state after `init` followed by the given calls, in order. -/
def run (events : List Event) : QuizState := events.foldl step init

/-- What holds in every state the wizard reaches: the step counter stays between 1 and 3, every
step below the current one has its answer, and the answers form a table over `q1`, `q2`, `q3`. -/
def WizardInvariant (s : QuizState) : Prop :=
  1 ≤ s.currentStep ∧ s.currentStep ≤ 3 ∧ s.totalSteps = 3 ∧
  (∀ j, 1 ≤ j → j < s.currentStep → (s.quizData.lookup (stepKey j)).isSome) ∧
  DistinctKeys s.quizData ∧
  ∀ k ∈ s.quizData.map Prod.fst, k ∈ ["q1", "q2", "q3"]


/-! ## Complete answer sets and symmetry -/

/-- The answer keys that the configuration `quizConfig` offers for a question. -/
def optionsOf (questionKey : String) : List String :=
  ((quizConfig.questions.lookup questionKey).map fun c => c.weight.map Prod.fst).getD []

/-- The answers of a completed quiz: one configured option for each of `q1`, `q2` and `q3`, the
entries in any order. -/
def CompleteAnswers (quizData : QuizData) : Prop :=
  ∃ a1 ∈ optionsOf "q1", ∃ a2 ∈ optionsOf "q2", ∃ a3 ∈ optionsOf "q3",
    quizData.Perm [("q1", a1), ("q2", a2), ("q3", a3)]

/-- The score vector with the two categories exchanged. -/
def Scores.swap (s : Scores) : Scores := ⟨s.evolutiva, s.terapia⟩

/-- The recommendation with `terapia` and `evolutiva` exchanged. -/
def Recommendation.swap : Recommendation → Recommendation
  | .both => .both
  | .terapia => .evolutiva
  | .evolutiva => .terapia

/-- The two displayed shares exchanged. -/
def ResultScores.swap (r : ResultScores) : ResultScores := ⟨r.evolutiva, r.terapia⟩


/-! ## Rounding with the exponent supplied -/

/-- The value of `nearest x` computed with the exponent `L` of the step supplied in advance,
which saves the logarithm; `none` when `L` is not the exponent of the step at `x`. -/
def nearestWith (L : ℕ) (x : ℚ) : Option ℚ :=
  if 2 ^ (L + 52) ≤ ⌊x * 2 ^ 1074⌋₊ ∧ ⌊x * 2 ^ 1074⌋₊ < 2 ^ (L + 52 + 1) then
    some (roundHalfEven (x / (2 ^ L / 2 ^ 1074)) * (2 ^ L / 2 ^ 1074))
  else none

/-- The percentage `pct score total` computed through `nearestWith`, the exponent of the
quotient taken from `Ls` and the exponent of the product from `Ms`. -/
def pctWith (Ls Ms : List ℕ) (score total : ℕ) : Option ℚ :=
  (Ls.findSome? fun L => nearestWith L ((score : ℚ) / total)).bind fun r =>
    Ms.findSome? fun M => nearestWith M (r * 100)

/-- The sum of the two displayed shares of `score` and `other` out of 200, through `pctWith`
with the exponents that occur between one half and one hundred percent. -/
def displayedSumWith (score other : ℕ) : Option ℤ :=
  (pctWith [1014, 1015, 1016, 1017, 1018, 1019, 1020, 1021]
      [1021, 1022, 1023, 1024, 1025, 1026, 1027, 1028] score 200).bind fun a =>
    (pctWith [1014, 1015, 1016, 1017, 1018, 1019, 1020, 1021]
      [1021, 1022, 1023, 1024, 1025, 1026, 1027, 1028] other 200).map fun b =>
        ⌊a + 1 / 2⌋ + ⌊b + 1 / 2⌋
end QuizSystem

/-! ## Accessibility panel (`src/js/accessibility.js`)

The page is taken to hold the four feature buttons, none of them with the class `active`, and a
`body` without feature classes.  Style sheets and overlays that the features insert are not part
of the state modelled here; `localStorage` is taken to accept what is written to it. -/

namespace AccessibilityPanel

/-- A JavaScript object whose properties are booleans, in insertion order. -/
abbrev Flags := List (String × Bool)

/-- The assignment `obj[key] = value`. -/
def setFlag : Flags → String → Bool → Flags
  | [], key, value => [(key, value)]
  | (k, v) :: rest, key, value =>
    if k == key then (k, value) :: rest else (k, v) :: setFlag rest key value

/-- The keys of `this.buttons`. -/
def buttonKeys : List String := ["focusMode", "dyslexicFont", "warmContrast", "increaseFont"]

/-- The class that the `switch` of `activateFeature` and `deactivateFeature` puts on or takes off
`document.body`; a feature name outside the four cases touches no class. -/
def bodyClass (feature : String) : Option String :=
  if feature = "focusMode" then some "focus-mode"
  else if feature = "dyslexicFont" then some "dyslexic-font"
  else if feature = "warmContrast" then some "warm-contrast"
  else if feature = "increaseFont" then some "increased-font"
  else none

/-- The panel: `this.state`, for each button whether it carries the class `active`, the feature
classes on `document.body`, and the record stored under `mindspace-accessibility`. -/
structure Panel where
  state : Flags
  active : Flags
  bodyClasses : List String
  storage : Option Flags
  deriving DecidableEq, Repr

/-- `classList.add`. -/
def addClass (classes : List String) (c : String) : List String :=
  if c ∈ classes then classes else classes ++ [c]

/-- The method `activateFeature`; `none` is the `TypeError` raised when `this.buttons[feature]`
is `undefined`, which happens after the `switch` and before any assignment to the panel. -/
def activateFeature (self : Panel) (feature : String) : Option Panel :=
  if feature ∈ buttonKeys then
    some { self with
      bodyClasses := match bodyClass feature with
        | some c => addClass self.bodyClasses c
        | none => self.bodyClasses
      active := setFlag self.active feature true
      state := setFlag self.state feature true }
  else none

/-- The method `deactivateFeature`, with `none` as for `activateFeature`. -/
def deactivateFeature (self : Panel) (feature : String) : Option Panel :=
  if feature ∈ buttonKeys then
    some { self with
      bodyClasses := match bodyClass feature with
        | some c => self.bodyClasses.erase c
        | none => self.bodyClasses
      active := setFlag self.active feature false
      state := setFlag self.state feature false }
  else none

/-- A property of `this.state` read as a condition or written to the settings (`undefined` is
falsy and is left out by `JSON.stringify`, which reads back as not set). -/
def flag (flags : Flags) (key : String) : Bool := (flags.lookup key).getD false

/-- The method `saveSettings`: the four properties it copies from `this.state`. -/
def saveSettings (self : Panel) : Panel :=
  { self with
    storage := some
      [("focusMode", flag self.state "focusMode"),
       ("dyslexicFont", flag self.state "dyslexicFont"),
       ("warmContrast", flag self.state "warmContrast"),
       ("increasedFont", flag self.state "increasedFont")] }

/-- The method `toggleFeature`. -/
def toggleFeature (self : Panel) (feature : String) : Option Panel :=
  if feature ∈ buttonKeys then
    (if flag self.active feature then deactivateFeature self feature
      else activateFeature self feature).map saveSettings
  else none

/-- The method `loadSettings`: every stored key that is set and names a button is activated
(under this guard `activateFeature` does not raise). -/
def loadSettings (self : Panel) : Panel :=
  match self.storage with
  | none => self
  | some settings =>
    (settings.map Prod.fst).foldl
      (fun p key =>
        if flag settings key && decide (key ∈ buttonKeys) then (activateFeature p key).getD p
        else p)
      self

/-- The method `init` on a page whose storage holds `storage`; `reducedMotion` says whether the
media query `prefers-reduced-motion: reduce` matches, in which case `bindEvents` activates the
focus mode before the settings are loaded. -/
def init (reducedMotion : Bool) (storage : Option Flags) : Panel :=
  let fresh : Panel :=
    { state := [("isOpen", false), ("focusMode", false), ("dyslexicFont", false),
        ("warmContrast", false), ("increasedFont", false)]
      active := buttonKeys.map fun k => (k, false)
      bodyClasses := []
      storage := storage }
  let bound :=
    if reducedMotion && !flag fresh.state "focusMode" then
      (activateFeature fresh "focusMode").getD fresh
    else fresh
  loadSettings bound

/-- Whether a feature is in force: its button is active and its class is on `body`. -/
def featureOn (self : Panel) (feature : String) : Bool :=
  flag self.active feature && (match bodyClass feature with
    | some c => decide (c ∈ self.bodyClasses)
    | none => false)

/-- The storage left by activating `feature` through `toggleFeature` on a freshly initialised
panel with nothing stored. -/
def storedAfterToggle (feature : String) : Option Flags :=
  ((toggleFeature (init false none) feature).map fun p => p.storage).getD none

end AccessibilityPanel

/-! ## Booking form (`src/js/booking.js`): validation of a date field -/

namespace BookingSystem

/-- An `input` of type `date` as `validateField` reads it: whether it is `required`, and its
value, which is empty or a calendar day (counted in days from 1970-01-01). -/
structure DateField where
  required : Bool
  value : Option Int
  deriving DecidableEq, Repr

/-- The messages `validateField` can show on a date field: `Questo campo è obbligatorio` and
`Seleziona una data futura`. -/
inductive FieldError where
  | required
  | futureDate
  deriving DecidableEq, Repr

/-- Milliseconds in a day. -/
def msPerDay : Int := 86400000

/-- The time value of `new Date(value)` for a date-only string: midnight UTC of that day. -/
def selectedDate (day : Int) : Int := day * msPerDay

/-- The calendar day of the user at time `now`; `offset` is the local time minus UTC in force
at `now`, both in milliseconds. -/
def localDay (now offset : Int) : Int := (now + offset) / msPerDay

/-- The time value of `new Date()` after `setHours(0, 0, 0, 0)`: midnight of the current local
day.  The day is read with the offset in force at `now`; the midnight is turned back into a time
value with `midnightOffset`, the offset in force at that local midnight, which differs from
`offset` on a day on which summer time starts or ends. -/
def today (now offset midnightOffset : Int) : Int :=
  localDay now offset * msPerDay - midnightOffset

/-- The method `validateField` on a date field: the value it returns and the message it leaves
on the field (a later message replaces an earlier one). -/
def validateField (field : DateField) (now offset midnightOffset : Int) :
    Bool × Option FieldError :=
  let afterRequired : Bool × Option FieldError :=
    if field.required && field.value.isNone then (false, some .required) else (true, none)
  match field.value with
  | some day =>
    if selectedDate day < today now offset midnightOffset then (false, some .futureDate)
    else afterRequired
  | none => afterRequired

end BookingSystem

/-! ## Accessibility panel: reset -/

namespace AccessibilityPanel

/-- The method `resetAll`: every key of `this.state` that is set, except `isOpen`, is
deactivated, then the settings are saved; `none` when `deactivateFeature` raises. -/
def resetAll (self : Panel) : Option Panel :=
  ((self.state.map Prod.fst).foldlM
    (fun p key =>
      if flag p.state key && key != "isOpen" then deactivateFeature p key else some p)
    self).map saveSettings

/-- The panel after `init` and the given calls of `toggleFeature`, in order; `none` when one of
the calls raises. -/
def runPanel (reducedMotion : Bool) (storage : Option Flags) (features : List String) :
    Option Panel :=
  features.foldlM toggleFeature (init reducedMotion storage)

/-- What holds of the panel after `init` and `toggleFeature` calls: a flag of `this.state` that
is set belongs to a button (or is `isOpen`), and an active button has its flag set. -/
def PanelInvariant (p : Panel) : Prop :=
  (∀ k, flag p.state k = true → k ∈ buttonKeys ∨ k = "isOpen") ∧
  (∀ k, flag p.active k = true → flag p.state k = true)

end AccessibilityPanel

/-! ## Booking form: the step wizard -/

namespace BookingSystem

/-- The fields of `BookingSystem` that the wizard assigns. -/
structure BookingState where
  currentStep : Nat
  totalSteps : Nat
  bookingData : List (String × String)
  deriving DecidableEq, Repr

/-- The fields `init` assigns: step 1 of 3 and no data. -/
def init : BookingState := { currentStep := 1, totalSteps := 3, bookingData := [] }

/-- The method `validateCurrentStep`; `fieldResults` holds what `validateField` returns for
each required field of the current step. -/
def validateCurrentStep (fieldResults : List Bool) : Bool := fieldResults.all id

/-- The method `saveCurrentStepData`; `entries` are the entries of the `FormData` of the
current step. -/
def saveCurrentStepData (self : BookingState) (entries : List (String × String)) :
    BookingState :=
  { self with
    bookingData := entries.foldl (fun data entry => QuizSystem.setKey data entry.1 entry.2)
      self.bookingData }

/-- The method `nextStep`. -/
def nextStep (self : BookingState) (fieldResults : List Bool)
    (entries : List (String × String)) : BookingState :=
  if validateCurrentStep fieldResults then
    let saved := saveCurrentStepData self entries
    if saved.currentStep < saved.totalSteps then
      { saved with currentStep := saved.currentStep + 1 }
    else saved
  else self

/-- The method `prevStep`. -/
def prevStep (self : BookingState) : BookingState :=
  if self.currentStep > 1 then { self with currentStep := self.currentStep - 1 } else self

/-- The method `resetForm` (its assignments to the state; the rest resets the page). -/
def resetForm (self : BookingState) : BookingState :=
  { self with currentStep := 1, bookingData := [] }

/-- The method `openModal`: the form is reset unless it is at its first step. -/
def openModal (self : BookingState) : BookingState :=
  if self.currentStep ≠ 1 then resetForm self else self

/-- The synchronous part of the method `submitBooking`. -/
def submitBooking (self : BookingState) (fieldResults : List Bool)
    (entries : List (String × String)) : BookingState :=
  if validateCurrentStep fieldResults then saveCurrentStepData self entries else self

/-- A call of a method of the booking wizard, with what the method reads from the page. -/
inductive Event where
  | openModal
  | nextStep (fieldResults : List Bool) (entries : List (String × String))
  | prevStep
  | resetForm
  | submitBooking (fieldResults : List Bool) (entries : List (String × String))

/-- The effect of one call on the state. -/
def step (self : BookingState) : Event → BookingState
  | .openModal => openModal self
  | .nextStep fieldResults entries => nextStep self fieldResults entries
  | .prevStep => prevStep self
  | .resetForm => resetForm self
  | .submitBooking fieldResults entries => submitBooking self fieldResults entries

/-- The state after `init` followed by the given calls, in order. -/
def run (events : List Event) : BookingState := events.foldl step init

end BookingSystem

namespace QuizSystem

/-! ## Rounding to binary64 -/

theorem ilog2Aux_eq_log (fuel n : Nat) (h : n ≤ fuel) : ilog2Aux fuel n = Nat.log 2 n := by
  induction fuel generalizing n with
  | zero =>
    have hn : n = 0 := by omega
    subst hn
    simp [ilog2Aux]
  | succ f ih =>
    unfold ilog2Aux
    split_ifs with h2
    · exact (Nat.log_of_lt h2).symm
    · rw [ih (n / 2) (by omega)]
      exact (Nat.log_of_one_lt_of_le (by norm_num) (by omega)).symm

theorem ilog2_eq_log (n : Nat) : ilog2 n = Nat.log 2 n := ilog2Aux_eq_log n n le_rfl

theorem roundHalfEven_sub_le (y : ℚ) : |(roundHalfEven y : ℚ) - y| ≤ 1 / 2 := by
  have h1 := Int.floor_le y
  have h2 := Int.lt_floor_add_one y
  unfold roundHalfEven
  rw [abs_le]
  split_ifs <;> push_cast <;> constructor <;> linarith

theorem floor_le_roundHalfEven (y : ℚ) : ⌊y⌋ ≤ roundHalfEven y := by
  unfold roundHalfEven
  split_ifs <;> omega

theorem roundHalfEven_le_floor_add_one (y : ℚ) : roundHalfEven y ≤ ⌊y⌋ + 1 := by
  unfold roundHalfEven
  split_ifs <;> omega

theorem roundHalfEven_mono {a b : ℚ} (h : a ≤ b) : roundHalfEven a ≤ roundHalfEven b := by
  rcases (Int.floor_mono h).eq_or_lt with hf | hf
  · unfold roundHalfEven
    rw [hf]
    have hf' : (⌊a⌋ : ℚ) = ⌊b⌋ := by exact_mod_cast hf
    split_ifs <;> first | omega | (exfalso; linarith)
  · calc roundHalfEven a ≤ ⌊a⌋ + 1 := roundHalfEven_le_floor_add_one a
      _ ≤ ⌊b⌋ := hf
      _ ≤ roundHalfEven b := floor_le_roundHalfEven b

theorem roundHalfEven_intCast (k : ℤ) : roundHalfEven (k : ℚ) = k := by
  unfold roundHalfEven
  simp

theorem ulp_pos (x : ℚ) : 0 < ulp x := by
  unfold ulp
  positivity


theorem ulpExp_eq (x : ℚ) : ulpExp x = Nat.log 2 ⌊x * 2 ^ 1074⌋₊ - 52 := by
  unfold ulpExp
  rw [ilog2_eq_log]

theorem ulp_eq (x : ℚ) : ulp x = 2 ^ ulpExp x / 2 ^ 1074 := rfl

theorem ulpExp_mono {x y : ℚ} (h : x ≤ y) : ulpExp x ≤ ulpExp y := by
  rw [ulpExp_eq, ulpExp_eq]
  exact Nat.sub_le_sub_right
    (Nat.log_mono_right (Nat.floor_mono (mul_le_mul_of_nonneg_right h (by positivity)))) 52

theorem scaled_lt (x : ℚ) : x * 2 ^ 1074 < 2 ^ 53 * 2 ^ ulpExp x := by
  have h1 : x * 2 ^ 1074 < (⌊x * 2 ^ 1074⌋₊ : ℚ) + 1 := Nat.lt_floor_add_one _
  have h2 : ⌊x * 2 ^ 1074⌋₊ < 2 ^ (Nat.log 2 ⌊x * 2 ^ 1074⌋₊ + 1) :=
    Nat.lt_pow_succ_log_self (by norm_num) _
  have h3 : Nat.log 2 ⌊x * 2 ^ 1074⌋₊ + 1 ≤ 53 + ulpExp x := by
    rw [ulpExp_eq]
    omega
  have h4 : (2 : ℕ) ^ (Nat.log 2 ⌊x * 2 ^ 1074⌋₊ + 1) ≤ 2 ^ (53 + ulpExp x) :=
    Nat.pow_le_pow_right (by norm_num) h3
  have h5 : ⌊x * 2 ^ 1074⌋₊ + 1 ≤ 2 ^ (53 + ulpExp x) := by omega
  have h6 : ((⌊x * 2 ^ 1074⌋₊ + 1 : ℕ) : ℚ) ≤ ((2 ^ (53 + ulpExp x) : ℕ) : ℚ) :=
    Nat.cast_le.2 h5
  push_cast at h6
  rw [pow_add] at h6
  linarith

theorem scaled_ge (x : ℚ) (hx : 2 ^ 52 ≤ x * 2 ^ 1074) :
    2 ^ 52 * 2 ^ ulpExp x ≤ x * 2 ^ 1074 := by
  have h0 : (0 : ℚ) ≤ x * 2 ^ 1074 := le_trans (by positivity) hx
  have hN : 2 ^ 52 ≤ ⌊x * 2 ^ 1074⌋₊ := Nat.le_floor (by push_cast; exact hx)
  have hN0 : ⌊x * 2 ^ 1074⌋₊ ≠ 0 := by
    have : 0 < 2 ^ 52 := by norm_num
    omega
  have h52 : 52 ≤ Nat.log 2 ⌊x * 2 ^ 1074⌋₊ := (Nat.pow_le_iff_le_log (by norm_num) hN0).1 hN
  have h1 : 2 ^ (52 + ulpExp x) ≤ ⌊x * 2 ^ 1074⌋₊ := by
    rw [ulpExp_eq, Nat.add_sub_cancel' h52]
    exact Nat.pow_log_le_self 2 hN0
  have h2 : ((2 ^ (52 + ulpExp x) : ℕ) : ℚ) ≤ (⌊x * 2 ^ 1074⌋₊ : ℚ) := Nat.cast_le.2 h1
  have h3 : (⌊x * 2 ^ 1074⌋₊ : ℚ) ≤ x * 2 ^ 1074 := Nat.floor_le h0
  push_cast at h2
  rw [pow_add] at h2
  linarith

theorem scaled_ge_of_ulpExp_pos (x : ℚ) (hx : 0 ≤ x) (h : 0 < ulpExp x) :
    2 ^ 52 ≤ x * 2 ^ 1074 := by
  rw [ulpExp_eq] at h
  have h53 : 52 ≤ Nat.log 2 ⌊x * 2 ^ 1074⌋₊ := by omega
  have hN0 : ⌊x * 2 ^ 1074⌋₊ ≠ 0 := by
    intro h0
    rw [h0] at h53
    simp at h53
  have hN : 2 ^ 52 ≤ ⌊x * 2 ^ 1074⌋₊ := (Nat.pow_le_iff_le_log (by norm_num) hN0).2 h53
  have h2 : ((2 ^ 52 : ℕ) : ℚ) ≤ (⌊x * 2 ^ 1074⌋₊ : ℚ) := Nat.cast_le.2 hN
  have h3 : (⌊x * 2 ^ 1074⌋₊ : ℚ) ≤ x * 2 ^ 1074 := Nat.floor_le (by positivity)
  push_cast at h2
  linarith

theorem div_ulp_eq (x : ℚ) : x / ulp x = x * 2 ^ 1074 / 2 ^ ulpExp x := by
  rw [ulp_eq]
  field_simp

theorem div_ulp_lt (x : ℚ) : x / ulp x < 2 ^ 53 := by
  rw [div_ulp_eq, div_lt_iff₀ (by positivity)]
  exact scaled_lt x

theorem le_div_ulp (x : ℚ) (hx : 2 ^ 52 ≤ x * 2 ^ 1074) : 2 ^ 52 ≤ x / ulp x := by
  rw [div_ulp_eq, le_div_iff₀ (by positivity)]
  exact scaled_ge x hx

theorem nearest_le (x : ℚ) : nearest x ≤ 2 ^ 53 * ulp x := by
  unfold nearest
  have h1 : roundHalfEven (x / ulp x) ≤ roundHalfEven (((2 ^ 53 : ℤ) : ℚ)) :=
    roundHalfEven_mono (by push_cast; exact (div_ulp_lt x).le)
  rw [roundHalfEven_intCast] at h1
  have h2 : ((roundHalfEven (x / ulp x) : ℤ) : ℚ) ≤ ((2 ^ 53 : ℤ) : ℚ) := by exact_mod_cast h1
  push_cast at h2
  exact mul_le_mul_of_nonneg_right h2 (ulp_pos x).le

theorem le_nearest (x : ℚ) (hx : 2 ^ 52 ≤ x * 2 ^ 1074) : 2 ^ 52 * ulp x ≤ nearest x := by
  unfold nearest
  have h1 : roundHalfEven (((2 ^ 52 : ℤ) : ℚ)) ≤ roundHalfEven (x / ulp x) :=
    roundHalfEven_mono (by push_cast; exact le_div_ulp x hx)
  rw [roundHalfEven_intCast] at h1
  have h2 : ((2 ^ 52 : ℤ) : ℚ) ≤ ((roundHalfEven (x / ulp x) : ℤ) : ℚ) := by exact_mod_cast h1
  push_cast at h2
  exact mul_le_mul_of_nonneg_right h2 (ulp_pos x).le

theorem nearest_mono {x y : ℚ} (hx : 0 ≤ x) (h : x ≤ y) : nearest x ≤ nearest y := by
  rcases (ulpExp_mono h).eq_or_lt with he | he
  · have hu : ulp x = ulp y := by rw [ulp_eq, ulp_eq, he]
    unfold nearest
    rw [hu]
    have h1 : roundHalfEven (x / ulp y) ≤ roundHalfEven (y / ulp y) :=
      roundHalfEven_mono (div_le_div_of_nonneg_right h (ulp_pos y).le)
    have h2 : ((roundHalfEven (x / ulp y) : ℤ) : ℚ) ≤ ((roundHalfEven (y / ulp y) : ℤ) : ℚ) := by
      exact_mod_cast h1
    exact mul_le_mul_of_nonneg_right h2 (ulp_pos y).le
  · have hy : 2 ^ 52 ≤ y * 2 ^ 1074 :=
      scaled_ge_of_ulpExp_pos y (le_trans hx h) (by omega)
    have h1 := nearest_le x
    have h2 := le_nearest y hy
    have h3 : (2 : ℚ) ^ 53 * ulp x ≤ 2 ^ 52 * ulp y := by
      rw [ulp_eq, ulp_eq]
      have h4 : (2 : ℚ) ^ (53 + ulpExp x) ≤ 2 ^ (52 + ulpExp y) :=
        pow_le_pow_right₀ (by norm_num) (by omega)
      rw [pow_add, pow_add] at h4
      rw [← mul_div_assoc, ← mul_div_assoc]
      exact div_le_div_of_nonneg_right h4 (by positivity)
    linarith

theorem nearest_zero : nearest 0 = 0 := by
  unfold nearest
  simp [roundHalfEven]

theorem nearest_nonneg {x : ℚ} (hx : 0 ≤ x) : 0 ≤ nearest x := by
  have := nearest_mono le_rfl hx
  rwa [nearest_zero] at this

theorem nearest_sub_le (x : ℚ) : |nearest x - x| ≤ ulp x / 2 := by
  have hu := ulp_pos x
  have h := roundHalfEven_sub_le (x / ulp x)
  have he : nearest x - x = ((roundHalfEven (x / ulp x) : ℚ) - x / ulp x) * ulp x := by
    unfold nearest
    field_simp
  rw [he, abs_mul, abs_of_pos hu]
  calc |(roundHalfEven (x / ulp x) : ℚ) - x / ulp x| * ulp x ≤ 1 / 2 * ulp x :=
        mul_le_mul_of_nonneg_right h hu.le
    _ = ulp x / 2 := by ring

theorem ulp_le (x : ℚ) (hx : 2 ^ 52 ≤ x * 2 ^ 1074) : ulp x ≤ x / 2 ^ 52 := by
  have h := scaled_ge x hx
  rw [ulp_eq, div_le_div_iff₀ (by positivity) (by positivity)]
  linarith

theorem nearest_rel (x : ℚ) (hx : 2 ^ 52 ≤ x * 2 ^ 1074) : |nearest x - x| ≤ x / 2 ^ 53 := by
  have h1 := nearest_sub_le x
  have h2 := ulp_le x hx
  have h3 : x / 2 ^ 53 = x / 2 ^ 52 / 2 := by
    rw [div_div]
    norm_num
  linarith


/-! ## Integers below `2 ^ 53` -/

/-- A non-negative integer below `2 ^ 53` is a binary64 value. -/
theorem nearest_natCast {n : ℕ} (h : n < 2 ^ 53) : nearest (n : ℚ) = n := by
  rcases Nat.eq_zero_or_pos n with rfl | hn
  · simpa using nearest_zero
  have hk1 : 2 ^ Nat.log 2 n ≤ n := Nat.pow_log_le_self 2 hn.ne'
  have hk2 : n < 2 ^ (Nat.log 2 n + 1) := Nat.lt_pow_succ_log_self (by norm_num) n
  have hk : Nat.log 2 n ≤ 52 := by
    by_contra hc
    have h53 : 2 ^ 53 ≤ 2 ^ Nat.log 2 n := Nat.pow_le_pow_right (by norm_num) (by omega)
    omega
  generalize Nat.log 2 n = k at hk1 hk2 hk
  obtain ⟨j, hj⟩ : ∃ j, k + j = 52 := ⟨52 - k, by omega⟩
  have hfloor : ⌊(n : ℚ) * 2 ^ 1074⌋₊ = n * 2 ^ 1074 := by
    have hc : (n : ℚ) * 2 ^ 1074 = ((n * 2 ^ 1074 : ℕ) : ℚ) := by
      rw [Nat.cast_mul, Nat.cast_pow, Nat.cast_ofNat]
    rw [hc, Nat.floor_natCast]
  have hlog : Nat.log 2 (n * 2 ^ 1074) = k + 1074 := by
    rw [Nat.log_eq_iff (Or.inl (by omega))]
    constructor
    · rw [pow_add]
      exact Nat.mul_le_mul_right _ hk1
    · rw [show k + 1074 + 1 = (k + 1) + 1074 by omega, pow_add]
      exact Nat.mul_lt_mul_of_pos_right hk2 (by positivity)
  have hE : ulpExp (n : ℚ) = k + 1022 := by
    rw [ulpExp_eq, hfloor, hlog]
    omega
  have hulp : ulp (n : ℚ) = 1 / 2 ^ j := by
    rw [ulp_eq, hE, div_eq_div_iff (by positivity) (by positivity), one_mul, ← pow_add]
    congr 1
    omega
  have hq : (n : ℚ) / (1 / 2 ^ j) = ((n * 2 ^ j : ℕ) : ℤ) := by
    push_cast
    field_simp
  unfold nearest
  rw [hulp, hq, roundHalfEven_intCast]
  push_cast
  field_simp

theorem roundDouble_natCast {n : ℕ} (h : n < 2 ^ 53) : roundDouble (n : ℚ) = .fin n := by
  have h0 : ¬ (n : ℚ) < 0 := not_lt.2 (Nat.cast_nonneg n)
  have h1 : ¬ (2 : ℚ) ^ 1024 ≤ nearest (n : ℚ) := by
    rw [nearest_natCast h, not_le]
    calc (n : ℚ) < 2 ^ 53 := by exact_mod_cast h
      _ ≤ 2 ^ 1024 := pow_le_pow_right₀ (by norm_num) (by norm_num)
  unfold roundDouble
  rw [if_neg h0, if_neg h1, nearest_natCast h]

/-- Binary64 addition of two non-negative integers is exact while the sum is below `2 ^ 53`. -/
theorem add_ofNat {a b : ℕ} (h : a + b < 2 ^ 53) :
    (JSNum.ofNat a).add (JSNum.ofNat b) = JSNum.ofNat (a + b) := by
  have h1 := roundDouble_natCast h
  rw [Nat.cast_add] at h1
  simp only [JSNum.ofNat, JSNum.add, h1, Nat.cast_add]

/-! ## Score accumulation -/

theorem lookup_of_mem {quizData : QuizData} (hd : DistinctKeys quizData) {k a : String}
    (h : (k, a) ∈ quizData) : quizData.lookup k = some a := by
  induction quizData with
  | nil => simp at h
  | cons p rest ih =>
    obtain ⟨k', a'⟩ := p
    simp only [DistinctKeys, List.map_cons, List.nodup_cons] at hd
    rcases List.mem_cons.1 h with h1 | h2
    · cases h1; simp [List.lookup]
    · have hne : k ≠ k' := by
        rintro rfl
        exact hd.1 (List.mem_map_of_mem Prod.fst h2)
      have hb : (k == k') = false := by simpa using hne
      simp only [List.lookup, hb]
      exact ih hd.2 h2

theorem addAnswer_eq_addEntry (config : QuizConfig) {quizData : QuizData} {k a : String}
    (h : quizData.lookup k = some a) (scores : Scores) :
    addAnswer config quizData scores k = addEntry config scores (k, a) := by
  unfold addAnswer addEntry selectedWeight
  rw [h]
  cases hq : config.questions.lookup k with
  | none => simp
  | some qc =>
    cases hw : qc.weight.lookup a with
    | none => simp [hw]
    | some w => simp [hw]

theorem foldl_addAnswer_eq (config : QuizConfig) (quizData : QuizData)
    (hd : DistinctKeys quizData) (l : List (String × String)) (hl : ∀ e ∈ l, e ∈ quizData)
    (scores : Scores) :
    (l.map Prod.fst).foldl (addAnswer config quizData) scores = l.foldl (addEntry config) scores := by
  induction l generalizing scores with
  | nil => rfl
  | cons e rest ih =>
    obtain ⟨k, a⟩ := e
    have hk : quizData.lookup k = some a := lookup_of_mem hd (hl _ (List.mem_cons_self _ _))
    simp only [List.map_cons, List.foldl_cons]
    rw [addAnswer_eq_addEntry config hk]
    exact ih (fun e he => hl e (List.mem_cons_of_mem _ he)) _

/-- With distinct keys the loop adds, entry by entry, the weights the entries select. -/
theorem accumulateScores_eq_foldl (config : QuizConfig) (quizData : QuizData)
    (hd : DistinctKeys quizData) :
    accumulateScores config quizData
      = quizData.foldl (addEntry config) ⟨JSNum.ofNat 0, JSNum.ofNat 0⟩ :=
  foldl_addAnswer_eq config quizData hd quizData (fun _ h => h) _

theorem scoreSpec_cons_none (config : QuizConfig) {e : String × String} (l : QuizData)
    (h : selectedWeight config e = none) : scoreSpec config (e :: l) = scoreSpec config l := by
  simp [scoreSpec, List.filterMap_cons, h]

theorem scoreSpec_cons_some (config : QuizConfig) {e : String × String} {w : WeightVector}
    (l : QuizData) (h : selectedWeight config e = some w) :
    scoreSpec config (e :: l)
      = ScoreVector.add ⟨w.terapia.getD 0, w.evolutiva.getD 0⟩ (scoreSpec config l) := by
  simp [scoreSpec, ScoreVector.add, List.filterMap_cons, h]

theorem weightValue_of_lt {w : Option Nat} (h : w.getD 0 < 2 ^ 53) :
    weightValue w = JSNum.ofNat (w.getD 0) :=
  roundDouble_natCast h

/-- While the exact sums stay below `2 ^ 53` the loop computes them without rounding. -/
theorem foldl_addEntry (config : QuizConfig) (l : List (String × String)) (v : ScoreVector)
    (ht : v.terapia + (scoreSpec config l).terapia < 2 ^ 53)
    (he : v.evolutiva + (scoreSpec config l).evolutiva < 2 ^ 53) :
    l.foldl (addEntry config) v.toScores = (v.add (scoreSpec config l)).toScores := by
  induction l generalizing v with
  | nil => simp [scoreSpec, ScoreVector.add]
  | cons e rest ih =>
    rw [List.foldl_cons]
    cases hs : selectedWeight config e with
    | none =>
      rw [scoreSpec_cons_none config rest hs] at ht he ⊢
      have h1 : addEntry config v.toScores e = v.toScores := by
        simp [addEntry, hs]
      rw [h1]
      exact ih v ht he
    | some w =>
      rw [scoreSpec_cons_some config rest hs] at ht he ⊢
      simp only [ScoreVector.add] at ht he
      have h1 : addEntry config v.toScores e
          = ScoreVector.toScores ⟨v.terapia + w.terapia.getD 0, v.evolutiva + w.evolutiva.getD 0⟩ := by
        simp only [addEntry, hs, ScoreVector.toScores]
        rw [weightValue_of_lt (by omega), weightValue_of_lt (by omega),
          add_ofNat (by omega), add_ofNat (by omega)]
      rw [h1, ih _ (by simp only; omega) (by simp only; omega)]
      simp only [ScoreVector.add, Nat.add_assoc]

theorem toScores_injective : Function.Injective ScoreVector.toScores := by
  rintro ⟨t, e⟩ ⟨t', e'⟩ h
  simp only [ScoreVector.toScores, JSNum.ofNat, Scores.mk.injEq, JSNum.fin.injEq,
    Nat.cast_inj] at h
  rw [h.1, h.2]

theorem zero_add_scores (s : ScoreVector) : ScoreVector.add ⟨0, 0⟩ s = s := by
  cases s; simp [ScoreVector.add]

/-- For an answer table whose exact sums are below `2 ^ 53` the loop returns the exact sums. -/
theorem accumulateScores_eq_sum (config : QuizConfig) (quizData : QuizData)
    (hd : DistinctKeys quizData) (hb : ExactSums config quizData) :
    accumulateScores config quizData = (scoreSpec config quizData).toScores := by
  rw [accumulateScores_eq_foldl config quizData hd]
  have h := foldl_addEntry config quizData ⟨0, 0⟩ (by simpa using hb.1) (by simpa using hb.2)
  rw [zero_add_scores] at h
  exact h

/-- Entries that select no weight can be left out of the loop. -/
theorem foldl_addEntry_filter (config : QuizConfig) (p : String × String → Bool)
    (l : List (String × String))
    (h : ∀ e ∈ l, p e = false → selectedWeight config e = none) (scores : Scores) :
    l.foldl (addEntry config) scores = (l.filter p).foldl (addEntry config) scores := by
  induction l generalizing scores with
  | nil => rfl
  | cons e rest ih =>
    have ih' := ih (fun x hx => h x (List.mem_cons_of_mem _ hx))
    cases hpe : p e with
    | true =>
      rw [List.filter_cons_of_pos hpe, List.foldl_cons, List.foldl_cons]
      exact ih' _
    | false =>
      have hf := h e (List.mem_cons_self _ _) hpe
      have h1 : addEntry config scores e = scores := by simp [addEntry, hf]
      rw [List.filter_cons_of_neg (by simp [hpe]), List.foldl_cons, h1]
      exact ih' _


theorem mem_of_lookup {β : Type} {l : List (String × β)} {k : String} {a : β}
    (h : l.lookup k = some a) : (k, a) ∈ l := by
  induction l with
  | nil => simp at h
  | cons p rest ih =>
    obtain ⟨k', a'⟩ := p
    by_cases hk : k = k'
    · subst hk
      simp [List.lookup] at h
      simp [h]
    · have hb : (k == k') = false := by simpa using hk
      simp only [List.lookup, hb] at h
      exact List.mem_cons_of_mem _ (ih h)

theorem lookup_filter_key {β : Type} (p : String × β → Bool) (k : String)
    (hp : ∀ v, p (k, v) = true) (l : List (String × β)) :
    (l.filter p).lookup k = l.lookup k := by
  induction l with
  | nil => rfl
  | cons e rest ih =>
    obtain ⟨k', v'⟩ := e
    by_cases hk : k = k'
    · subst hk
      simp [List.filter, hp, List.lookup]
    · have hb : (k == k') = false := by simpa using hk
      cases hpe : p (k', v') with
      | true => simp [List.filter, hpe, List.lookup, hb, ih]
      | false => simp [List.filter, hpe, List.lookup, hb, ih]

theorem addAnswer_answeredOnly (config : QuizConfig) (quizData : QuizData) (scores : Scores)
    (k : String) :
    addAnswer (answeredOnly config quizData) quizData scores k
      = addAnswer config quizData scores k := by
  unfold addAnswer
  cases hk : quizData.lookup k with
  | none => rfl
  | some a =>
    have hl : (answeredOnly config quizData).questions.lookup k = config.questions.lookup k :=
      lookup_filter_key _ k (fun v => by simp [hk]) _
    simp only [hl]

theorem scoreSpec_append (config : QuizConfig) (a b : QuizData) :
    scoreSpec config (a ++ b) = (scoreSpec config a).add (scoreSpec config b) := by
  simp [scoreSpec, ScoreVector.add, List.filterMap_append]

theorem scoreSpec_perm (config : QuizConfig) {a b : QuizData} (h : a.Perm b) :
    scoreSpec config a = scoreSpec config b := by
  have hp := h.filterMap (selectedWeight config)
  simp only [scoreSpec, (hp.map _).sum_eq]

theorem distinctKeys_append {a b : QuizData} (ha : DistinctKeys a) (hb : DistinctKeys b)
    (hab : DisjointKeys a b) : DistinctKeys (a ++ b) := by
  unfold DistinctKeys
  rw [List.map_append]
  exact List.Nodup.append ha hb (fun k hka hkb => hab k hka hkb)

theorem distinctKeys_filter {quizData : QuizData} (hd : DistinctKeys quizData)
    (p : String × String → Bool) : DistinctKeys (quizData.filter p) :=
  List.Nodup.sublist ((List.filter_sublist quizData).map Prod.fst) hd

theorem lookup_perm {a b : QuizData} (h : a.Perm b) (ha : DistinctKeys a) (k : String) :
    a.lookup k = b.lookup k := by
  have hb : DistinctKeys b := (h.map Prod.fst).nodup_iff.1 ha
  cases hA : a.lookup k with
  | some v => exact (lookup_of_mem hb (h.subset (mem_of_lookup hA))).symm
  | none =>
    cases hB : b.lookup k with
    | none => rfl
    | some v =>
      have := lookup_of_mem ha (h.symm.subset (mem_of_lookup hB))
      rw [hA] at this
      exact this


/-- C3: for every answer set (a table, so its keys are distinct) whose sums of selected weights
are below `2 ^ 53`, the score that the loop of `calculateResults` accumulates for each category
is the sum, over the answered questions whose answer key is in the question's weight table, of
the selected weight of that category.  The configured questions meet the bound with every
answer set (`exactSums_quizConfig`). -/
theorem accumulateScores_eq_scoreSpec (config : QuizConfig) (quizData : QuizData)
    (hd : DistinctKeys quizData) (hb : ExactSums config quizData) :
    (accumulateScores config quizData).terapia
      = JSNum.ofNat (scoreSpec config quizData).terapia ∧
    (accumulateScores config quizData).evolutiva
      = JSNum.ofNat (scoreSpec config quizData).evolutiva := by
  rw [accumulateScores_eq_sum config quizData hd hb]
  exact ⟨rfl, rfl⟩

theorem accumulateScores_eq_scoreSpec_witness :
    DistinctKeys [("q1", "stress"), ("q2", "unknown"), ("q3", "light"), ("q9", "x")] ∧
    ExactSums quizConfig [("q1", "stress"), ("q2", "unknown"), ("q3", "light"), ("q9", "x")] ∧
    (accumulateScores quizConfig
        [("q1", "stress"), ("q2", "unknown"), ("q3", "light"), ("q9", "x")]).terapia
      = JSNum.ofNat 5 ∧
    (accumulateScores quizConfig
        [("q1", "stress"), ("q2", "unknown"), ("q3", "light"), ("q9", "x")]).evolutiva
      = JSNum.ofNat 3 :=
  ⟨by decide, by decide,
    (accumulateScores_eq_scoreSpec quizConfig _ (by decide) (by decide)).1.trans
      (congrArg JSNum.ofNat (by decide)),
    (accumulateScores_eq_scoreSpec quizConfig _ (by decide) (by decide)).2.trans
      (congrArg JSNum.ofNat (by decide))⟩

/-- C5: a question that the answer set leaves out contributes nothing: for every configuration
and answer set the loop terminates with the scores obtained from the configuration restricted to
the answered questions. -/
theorem unanswered_contribute_zero (config : QuizConfig) (quizData : QuizData) :
    accumulateScores config quizData
      = accumulateScores (answeredOnly config quizData) quizData := by
  unfold accumulateScores
  congr 1
  funext scores k
  exact (addAnswer_answeredOnly config quizData scores k).symm

/-- C6: an answer key that is not in its question's weight table contributes nothing: the scores
are those of the answer set without the entry of that question. -/
theorem unrecognized_answer_contributes_zero (config : QuizConfig) (quizData : QuizData)
    (hd : DistinctKeys quizData) (q a : String) (questionConfig : QuestionConfig)
    (hq : config.questions.lookup q = some questionConfig)
    (ha : questionConfig.weight.lookup a = none) (hmem : (q, a) ∈ quizData) :
    accumulateScores config quizData = accumulateScores config (withoutQuestion quizData q) := by
  have hd' : DistinctKeys (withoutQuestion quizData q) := distinctKeys_filter hd _
  rw [accumulateScores_eq_foldl config quizData hd, accumulateScores_eq_foldl config _ hd']
  have hnone : ∀ e ∈ quizData, (e.1 != q) = false → selectedWeight config e = none := by
    rintro ⟨k, v⟩ he hk
    have hkq : k = q := by simpa using hk
    subst hkq
    have h1 := lookup_of_mem hd he
    have h2 := lookup_of_mem hd hmem
    have hva : v = a := by
      rw [h1] at h2
      exact Option.some.inj h2
    subst hva
    simp [selectedWeight, hq, ha]
  exact foldl_addEntry_filter config (fun e => e.1 != q) quizData hnone _

theorem unrecognized_answer_contributes_zero_witness :
    accumulateScores quizConfig [("q1", "stress"), ("q2", "other"), ("q3", "light")]
      = accumulateScores quizConfig
          (withoutQuestion [("q1", "stress"), ("q2", "other"), ("q3", "light")] "q2") :=
  unrecognized_answer_contributes_zero quizConfig
    [("q1", "stress"), ("q2", "other"), ("q3", "light")] (by decide) "q2" "other"
    ⟨[("wellbeing", ⟨some 3, some 1⟩), ("skills", ⟨some 1, some 3⟩),
      ("relationships", ⟨some 3, some 2⟩), ("performance", ⟨some 2, some 3⟩)]⟩
    (by decide) (by decide) (by decide)

theorem exactSums_append_left {config : QuizConfig} {a b : QuizData}
    (h : ExactSums config (a ++ b)) : ExactSums config a := by
  unfold ExactSums at h ⊢
  rw [scoreSpec_append] at h
  simp only [ScoreVector.add] at h
  exact ⟨by omega, by omega⟩

theorem exactSums_append_right {config : QuizConfig} {a b : QuizData}
    (h : ExactSums config (a ++ b)) : ExactSums config b := by
  unfold ExactSums at h ⊢
  rw [scoreSpec_append] at h
  simp only [ScoreVector.add] at h
  exact ⟨by omega, by omega⟩

/-- C9: for answer sets `a` and `b` that answer disjoint sets of questions and whose union has
sums of selected weights below `2 ^ 53`, the three score objects hold integers, and the scores
of the union are the component-wise sum of the scores of `a` and of `b`. -/
theorem accumulateScores_union (config : QuizConfig) (a b : QuizData)
    (ha : DistinctKeys a) (hb : DistinctKeys b) (hab : DisjointKeys a b)
    (hbound : ExactSums config (a ++ b)) :
    ∃ sa sb : ScoreVector, accumulateScores config a = sa.toScores ∧
      accumulateScores config b = sb.toScores ∧
      accumulateScores config (a ++ b) = (sa.add sb).toScores := by
  refine ⟨scoreSpec config a, scoreSpec config b,
    accumulateScores_eq_sum config a ha (exactSums_append_left hbound),
    accumulateScores_eq_sum config b hb (exactSums_append_right hbound), ?_⟩
  rw [accumulateScores_eq_sum config _ (distinctKeys_append ha hb hab) hbound, scoreSpec_append]

theorem accumulateScores_union_witness :
    ∃ sa sb : ScoreVector,
      accumulateScores quizConfig [("q1", "stress"), ("q3", "light")] = sa.toScores ∧
      accumulateScores quizConfig [("q2", "skills")] = sb.toScores ∧
      accumulateScores quizConfig ([("q1", "stress"), ("q3", "light")] ++ [("q2", "skills")])
        = (sa.add sb).toScores :=
  accumulateScores_union quizConfig [("q1", "stress"), ("q3", "light")] [("q2", "skills")]
    (by decide) (by decide) (by decide) (by decide)

theorem exactSums_perm {config : QuizConfig} {a b : QuizData} (h : a.Perm b)
    (ha : ExactSums config a) : ExactSums config b := by
  unfold ExactSums at ha ⊢
  rw [← scoreSpec_perm config h]
  exact ha

/-- C10: the order of the entries of an answer set does not matter: for an answer set whose sums
of selected weights are below `2 ^ 53`, any permutation of the entries gives the same scores and
the same result record. -/
theorem accumulateScores_perm (config : QuizConfig) (a b : QuizData) (h : a.Perm b)
    (ha : DistinctKeys a) (hbound : ExactSums config a) :
    accumulateScores config a = accumulateScores config b ∧
    classify (accumulateScores config a) a = classify (accumulateScores config b) b := by
  have hb : DistinctKeys b := (h.map Prod.fst).nodup_iff.1 ha
  have hs : accumulateScores config a = accumulateScores config b := by
    rw [accumulateScores_eq_sum config a ha hbound,
      accumulateScores_eq_sum config b hb (exactSums_perm h hbound), scoreSpec_perm config h]
  refine ⟨hs, ?_⟩
  have hdet : details a = details b := by
    simp only [details, lookup_perm h ha]
  simp only [classify, hs, hdet]

theorem accumulateScores_perm_witness :
    accumulateScores quizConfig [("q1", "stress"), ("q2", "skills"), ("q3", "light")]
      = accumulateScores quizConfig [("q3", "light"), ("q1", "stress"), ("q2", "skills")] ∧
    classify (accumulateScores quizConfig [("q1", "stress"), ("q2", "skills"), ("q3", "light")])
        [("q1", "stress"), ("q2", "skills"), ("q3", "light")]
      = classify
          (accumulateScores quizConfig [("q3", "light"), ("q1", "stress"), ("q2", "skills")])
          [("q3", "light"), ("q1", "stress"), ("q2", "skills")] :=
  accumulateScores_perm quizConfig _ _ (by decide) (by decide) (by decide)

/-! ## The configured weights -/

theorem quizConfig_weights_le :
    ∀ q ∈ quizConfig.questions, q.1 ∈ ["q1", "q2", "q3"] ∧
      ∀ a ∈ q.2.weight, a.2.terapia.getD 0 ≤ 3 ∧ a.2.evolutiva.getD 0 ≤ 3 := by
  decide

theorem selectedWeight_quizConfig {e : String × String} {w : WeightVector}
    (h : selectedWeight quizConfig e = some w) :
    e.1 ∈ ["q1", "q2", "q3"] ∧ w.terapia.getD 0 ≤ 3 ∧ w.evolutiva.getD 0 ≤ 3 := by
  unfold selectedWeight at h
  cases hq : quizConfig.questions.lookup e.1 with
  | none => simp [hq] at h
  | some qc =>
    rw [hq] at h
    have h1 := quizConfig_weights_le (e.1, qc) (mem_of_lookup hq)
    have h2 := h1.2 (e.2, w) (mem_of_lookup h)
    exact ⟨h1.1, h2⟩

theorem sum_selected_le (f : WeightVector → Nat)
    (hf : ∀ e w, selectedWeight quizConfig e = some w → f w ≤ 3) (l : QuizData) :
    ((l.filterMap (selectedWeight quizConfig)).map f).sum
      ≤ 3 * ((l.map Prod.fst).filter fun k => decide (k ∈ ["q1", "q2", "q3"])).length := by
  induction l with
  | nil => simp
  | cons e rest ih =>
    cases hs : selectedWeight quizConfig e with
    | none =>
      simp only [List.filterMap_cons, hs, List.map_cons]
      refine le_trans ih (Nat.mul_le_mul_left 3 ?_)
      exact (List.Sublist.filter _ (List.sublist_cons_self e.1 (rest.map Prod.fst))).length_le
    | some w =>
      have hk := (selectedWeight_quizConfig hs).1
      have hw := hf e w hs
      simp only [List.filterMap_cons, hs, List.map_cons, List.sum_cons, List.filter_cons,
        decide_eq_true_eq, hk, if_true, List.length_cons]
      omega

theorem answered_keys_le (quizData : QuizData) (hd : DistinctKeys quizData) :
    ((quizData.map Prod.fst).filter fun k => decide (k ∈ ["q1", "q2", "q3"])).length ≤ 3 := by
  have hn : ((quizData.map Prod.fst).filter
      fun k => decide (k ∈ ["q1", "q2", "q3"])).Nodup := List.Nodup.filter _ hd
  have hs : ((quizData.map Prod.fst).filter fun k => decide (k ∈ ["q1", "q2", "q3"]))
      ⊆ ["q1", "q2", "q3"] := by
    intro k hk
    simpa using (List.mem_filter.1 hk).2
  exact (List.subperm_of_subset hn hs).length_le

theorem scoreSpec_quizConfig_le (quizData : QuizData) (hd : DistinctKeys quizData) :
    (scoreSpec quizConfig quizData).terapia ≤ 9 ∧ (scoreSpec quizConfig quizData).evolutiva ≤ 9 := by
  have hk := answered_keys_le quizData hd
  have h1 := sum_selected_le (fun w => w.terapia.getD 0)
    (fun e w h => (selectedWeight_quizConfig h).2.1) quizData
  have h2 := sum_selected_le (fun w => w.evolutiva.getD 0)
    (fun e w h => (selectedWeight_quizConfig h).2.2) quizData
  simp only [scoreSpec]
  constructor <;> omega

/-- With the configured questions every answer table has sums below `2 ^ 53`: no sum exceeds 9. -/
theorem exactSums_quizConfig (quizData : QuizData) (hd : DistinctKeys quizData) :
    ExactSums quizConfig quizData := by
  have h := scoreSpec_quizConfig_le quizData hd
  have h53 : 9 < 2 ^ 53 := by norm_num
  exact ⟨lt_of_le_of_lt h.1 h53, lt_of_le_of_lt h.2 h53⟩

/-! ## From JavaScript operations to rational values -/

theorem nearest_one : nearest 1 = 1 := by decide!

theorem nearest_hundred : nearest 100 = 100 := by decide!

theorem hundred_lt_overflow : (100 : ℚ) < 2 ^ 1024 :=
  calc (100 : ℚ) < 2 ^ 7 := by norm_num
    _ ≤ 2 ^ 1024 := pow_le_pow_right₀ (by norm_num) (by norm_num)

theorem roundDouble_of_nonneg {x : ℚ} (h0 : 0 ≤ x) (h1 : x ≤ 100) :
    roundDouble x = .fin (nearest x) := by
  have h2 : nearest x ≤ 100 := nearest_hundred ▸ nearest_mono h0 h1
  have h3 : ¬ (2 : ℚ) ^ 1024 ≤ nearest x := not_le.2 (lt_of_le_of_lt h2 hundred_lt_overflow)
  unfold roundDouble
  rw [if_neg (not_lt.2 h0), if_neg h3]

theorem roundDouble_of_neg {x : ℚ} (h0 : x < 0) (h1 : -x ≤ 100) :
    roundDouble x = .fin (-nearest (-x)) := by
  have h2 : nearest (-x) ≤ 100 := nearest_hundred ▸ nearest_mono (by linarith) h1
  have h3 : ¬ (2 : ℚ) ^ 1024 ≤ nearest (-x) :=
    not_le.2 (lt_of_le_of_lt h2 hundred_lt_overflow)
  unfold roundDouble
  rw [if_pos h0, if_neg h3]

theorem nearest_div_le_one {score total : Nat} (h0 : 0 < total) (hle : score ≤ total) :
    nearest ((score : ℚ) / total) ≤ 1 := by
  have hT : (0 : ℚ) < total := by exact_mod_cast h0
  have h1 : (score : ℚ) / total ≤ 1 := by
    rw [div_le_one hT]
    exact_mod_cast hle
  exact nearest_one ▸ nearest_mono (by positivity) h1

theorem pct_nonneg (score total : Nat) : 0 ≤ pct score total :=
  nearest_nonneg (mul_nonneg (nearest_nonneg (by positivity)) (by norm_num))

theorem pct_le_hundred {score total : Nat} (h0 : 0 < total) (hle : score ≤ total) :
    pct score total ≤ 100 := by
  have h1 := nearest_div_le_one h0 hle
  have h2 : (0 : ℚ) ≤ nearest ((score : ℚ) / total) := nearest_nonneg (by positivity)
  exact nearest_hundred ▸ nearest_mono (by positivity) (by linarith)

theorem percentage_eq {score total : Nat} (h0 : 0 < total) (hle : score ≤ total) :
    percentage (JSNum.ofNat score) (JSNum.ofNat total) = .fin (pct score total) := by
  have hT : (total : ℚ) ≠ 0 := by exact_mod_cast h0.ne'
  have h1 := nearest_div_le_one h0 hle
  have h2 : (0 : ℚ) ≤ nearest ((score : ℚ) / total) := nearest_nonneg (by positivity)
  have h3 : (score : ℚ) / total ≤ 1 := by
    rw [div_le_one (by positivity)]
    exact_mod_cast hle
  have hd : roundDouble ((score : ℚ) / total) = .fin (nearest ((score : ℚ) / total)) :=
    roundDouble_of_nonneg (by positivity) (by linarith)
  unfold percentage JSNum.ofNat JSNum.div
  simp only [hT, if_false, hd, JSNum.mul]
  rw [roundDouble_of_nonneg (by positivity) (by push_cast; linarith)]
  simp [pct]


theorem closeMatch_fin {a b : ℚ} (ha0 : 0 ≤ a) (ha : a ≤ 100) (hb0 : 0 ≤ b) (hb : b ≤ 100) :
    closeMatch (.fin a) (.fin b) = decide (nearest |a - b| ≤ 10) := by
  simp only [closeMatch, JSNum.sub]
  by_cases h : a - b < 0
  · have hn : 0 ≤ nearest (-(a - b)) := nearest_nonneg (by linarith)
    rw [roundDouble_of_neg h (by linarith), abs_of_neg h]
    simp only [JSNum.abs, JSNum.le, JSNum.ofNat, abs_neg, abs_of_nonneg hn, Nat.cast_ofNat]
  · have h' : 0 ≤ a - b := not_lt.1 h
    have hn : 0 ≤ nearest (a - b) := nearest_nonneg h'
    rw [roundDouble_of_nonneg h' (by linarith), abs_of_nonneg h']
    simp only [JSNum.abs, JSNum.le, JSNum.ofNat, abs_of_nonneg hn, Nat.cast_ofNat]

theorem classify_recommendation (s : ScoreVector) (quizData : QuizData)
    (hT : 0 < s.terapia + s.evolutiva) (hB : s.terapia + s.evolutiva < 2 ^ 53) :
    (classify s.toScores quizData).recommendation =
      if nearest |pct s.terapia (s.terapia + s.evolutiva)
          - pct s.evolutiva (s.terapia + s.evolutiva)| ≤ 10 then .both
      else if pct s.evolutiva (s.terapia + s.evolutiva)
          < pct s.terapia (s.terapia + s.evolutiva) then .terapia
      else .evolutiva := by
  have h1 := percentage_eq hT (Nat.le_add_right s.terapia s.evolutiva)
  have h2 := percentage_eq hT (Nat.le_add_left s.evolutiva s.terapia)
  have hc := closeMatch_fin (pct_nonneg s.terapia (s.terapia + s.evolutiva))
    (pct_le_hundred hT (Nat.le_add_right s.terapia s.evolutiva))
    (pct_nonneg s.evolutiva (s.terapia + s.evolutiva))
    (pct_le_hundred hT (Nat.le_add_left s.evolutiva s.terapia))
  simp only [classify, ScoreVector.toScores, add_ofNat hB, recommend, h1, h2, hc, JSNum.gt]
  split_ifs <;> simp_all

theorem classify_confidence (s : ScoreVector) (quizData : QuizData)
    (hT : 0 < s.terapia + s.evolutiva) (hB : s.terapia + s.evolutiva < 2 ^ 53) :
    (classify s.toScores quizData).confidence =
      if nearest |pct s.terapia (s.terapia + s.evolutiva)
          - pct s.evolutiva (s.terapia + s.evolutiva)| ≤ 10 then .moderate
      else if pct s.evolutiva (s.terapia + s.evolutiva)
          < pct s.terapia (s.terapia + s.evolutiva) then
        (if 70 ≤ pct s.terapia (s.terapia + s.evolutiva) then .high else .moderate)
      else (if 70 ≤ pct s.evolutiva (s.terapia + s.evolutiva) then .high else .moderate) := by
  have h1 := percentage_eq hT (Nat.le_add_right s.terapia s.evolutiva)
  have h2 := percentage_eq hT (Nat.le_add_left s.evolutiva s.terapia)
  have hc := closeMatch_fin (pct_nonneg s.terapia (s.terapia + s.evolutiva))
    (pct_le_hundred hT (Nat.le_add_right s.terapia s.evolutiva))
    (pct_nonneg s.evolutiva (s.terapia + s.evolutiva))
    (pct_le_hundred hT (Nat.le_add_left s.evolutiva s.terapia))
  simp only [classify, ScoreVector.toScores, add_ofNat hB, recommend, h1, h2, hc, JSNum.gt,
    JSNum.ge]
  simp only [JSNum.le, JSNum.ofNat]
  split_ifs <;> simp_all

theorem classify_scores (s : ScoreVector) (quizData : QuizData)
    (hT : 0 < s.terapia + s.evolutiva) (hB : s.terapia + s.evolutiva < 2 ^ 53) :
    (classify s.toScores quizData).scores =
      ⟨.fin ⌊pct s.terapia (s.terapia + s.evolutiva) + 1 / 2⌋,
        .fin ⌊pct s.evolutiva (s.terapia + s.evolutiva) + 1 / 2⌋⟩ := by
  have h1 := percentage_eq hT (Nat.le_add_right s.terapia s.evolutiva)
  have h2 := percentage_eq hT (Nat.le_add_left s.evolutiva s.terapia)
  simp only [classify, ScoreVector.toScores, add_ofNat hB, h1, h2, JSNum.round]

theorem pct_eleven_twentieths : nearest (nearest (11 / 20) * 100) = 55 + 1 / 2 ^ 47 := by decide!

theorem pct_nine_twentieths : nearest (nearest (9 / 20) * 100) = 45 := by decide!

theorem pct_seven_tenths : nearest (nearest (7 / 10) * 100) = 70 := by decide!

theorem nearest_above_ten : nearest (10 + 1 / 2 ^ 47) = 10 + 1 / 2 ^ 47 := by decide!

theorem pct_mono_left {c : ℚ} (hc : 0 ≤ c) {score total : Nat} (h : c ≤ (score : ℚ) / total) :
    nearest (nearest c * 100) ≤ pct score total :=
  nearest_mono (mul_nonneg (nearest_nonneg hc) (by norm_num))
    (mul_le_mul_of_nonneg_right (nearest_mono hc h) (by norm_num))

theorem pct_mono_right {c : ℚ} {score total : Nat} (h : (score : ℚ) / total ≤ c) :
    pct score total ≤ nearest (nearest c * 100) :=
  nearest_mono (mul_nonneg (nearest_nonneg (by positivity)) (by norm_num))
    (mul_le_mul_of_nonneg_right (nearest_mono (by positivity) h) (by norm_num))

/-- A share of at least 11/20 against one of at most 9/20 is computed more than 10 apart. -/
theorem far_apart {a b total : Nat} (ha : 11 / 20 ≤ (a : ℚ) / total)
    (hb : (b : ℚ) / total ≤ 9 / 20) :
    pct b total < pct a total ∧ 10 < nearest |pct a total - pct b total| := by
  have h1 : 55 + 1 / 2 ^ 47 ≤ pct a total :=
    pct_eleven_twentieths ▸ pct_mono_left (by norm_num) ha
  have h2 : pct b total ≤ 45 := pct_nine_twentieths ▸ pct_mono_right hb
  have h3 : (10 : ℚ) + 1 / 2 ^ 47 ≤ pct a total - pct b total := by linarith
  have h4 : (0 : ℚ) ≤ pct a total - pct b total := by
    have : (0 : ℚ) ≤ 10 + 1 / 2 ^ 47 := by norm_num
    linarith
  have h5 : nearest (10 + 1 / 2 ^ 47) ≤ nearest (pct a total - pct b total) :=
    nearest_mono (by norm_num) h3
  rw [nearest_above_ten] at h5
  rw [abs_of_nonneg h4]
  have h6 : (0 : ℚ) < 1 / 2 ^ 47 := by norm_num
  constructor <;> linarith

theorem gap_cases (t e : Nat) (hT : 0 < t + e)
    (h : 10 ≤ |exactShare t (t + e) - exactShare e (t + e)|) :
    (e < t ∧ 11 / 20 ≤ (t : ℚ) / (t + e : ℕ) ∧ (e : ℚ) / (t + e : ℕ) ≤ 9 / 20) ∨
    (t < e ∧ 11 / 20 ≤ (e : ℚ) / (t + e : ℕ) ∧ (t : ℚ) / (t + e : ℕ) ≤ 9 / 20) := by
  have hTq : (0 : ℚ) < ((t + e : ℕ) : ℚ) := by exact_mod_cast hT
  have hsum : (t : ℚ) / (t + e : ℕ) + (e : ℚ) / (t + e : ℕ) = 1 := by
    rw [← add_div]
    push_cast
    exact div_self (by push_cast at hTq; exact hTq.ne')
  unfold exactShare at h
  rcases le_abs.1 h with h1 | h1
  · left
    have hlt : (e : ℚ) / (t + e : ℕ) < (t : ℚ) / (t + e : ℕ) := by linarith
    have hlt' : (e : ℚ) < t := (div_lt_div_iff_of_pos_right hTq).1 hlt
    exact ⟨by exact_mod_cast hlt', by linarith, by linarith⟩
  · right
    have hlt : (t : ℚ) / (t + e : ℕ) < (e : ℚ) / (t + e : ℕ) := by linarith
    have hlt' : (t : ℚ) < e := (div_lt_div_iff_of_pos_right hTq).1 hlt
    exact ⟨by exact_mod_cast hlt', by linarith, by linarith⟩

/-- Shares that are exactly 10 or more points apart are never classified as `both`: the
recommendation is the category with the larger score. -/
theorem recommendation_of_gap (s : ScoreVector) (quizData : QuizData)
    (hT : 0 < s.terapia + s.evolutiva) (hB : s.terapia + s.evolutiva < 2 ^ 53)
    (h : 10 ≤ |exactShare s.terapia (s.terapia + s.evolutiva)
      - exactShare s.evolutiva (s.terapia + s.evolutiva)|) :
    (classify s.toScores quizData).recommendation
      = if s.evolutiva < s.terapia then .terapia else .evolutiva := by
  rw [classify_recommendation s quizData hT hB]
  rcases gap_cases s.terapia s.evolutiva hT h with ⟨hlt, ha, hb⟩ | ⟨hlt, ha, hb⟩
  · obtain ⟨h1, h2⟩ := far_apart ha hb
    rw [if_neg (not_le.2 h2), if_pos h1, if_pos hlt]
  · obtain ⟨h1, h2⟩ := far_apart ha hb
    rw [abs_sub_comm, if_neg (not_le.2 h2), if_neg (not_lt.2 h1.le), if_neg (by omega)]


/-! ## Accuracy of the computed percentage -/

theorem exactShare_mul {t T : Nat} (hT : 0 < T) : exactShare t T * T = 100 * t := by
  have hTq : (T : ℚ) ≠ 0 := by exact_mod_cast hT.ne'
  unfold exactShare
  field_simp
  ring

theorem ratio_scaled_ge {t T : Nat} (ht : 0 < t) (hT : 0 < T) (hB : T ≤ 2 ^ 48) :
    (2 : ℚ) ^ 52 ≤ (t : ℚ) / T * 2 ^ 1074 := by
  have hTq : (0 : ℚ) < T := by exact_mod_cast hT
  have htq : (1 : ℚ) ≤ t := by exact_mod_cast ht
  have hBq : (T : ℚ) ≤ 2 ^ 48 := by exact_mod_cast hB
  have e1 : (2 : ℚ) ^ 1074 = 2 ^ 52 * 2 ^ 48 * 2 ^ 974 := by
    rw [← pow_add, ← pow_add]
  have h974 : (1 : ℚ) ≤ 2 ^ 974 := one_le_pow₀ (by norm_num)
  rw [e1, div_mul_eq_mul_div, le_div_iff₀ hTq]
  have h1 : (2 : ℚ) ^ 52 * T ≤ 2 ^ 52 * 2 ^ 48 := by
    apply mul_le_mul_of_nonneg_left hBq (by positivity)
  have h2 : (2 : ℚ) ^ 52 * 2 ^ 48 ≤ 2 ^ 52 * 2 ^ 48 * 2 ^ 974 :=
    le_mul_of_one_le_right (by positivity) h974
  have h3 : (2 : ℚ) ^ 52 * 2 ^ 48 * 2 ^ 974 ≤ t * (2 ^ 52 * 2 ^ 48 * 2 ^ 974) :=
    le_mul_of_one_le_left (by positivity) htq
  linarith

/-- Accuracy of the computed percentage: two roundings, each within half a unit in the last
place. -/
theorem pct_sub_exactShare {t T : Nat} (hT : 0 < T) (hle : t ≤ T) (hB : T ≤ 2 ^ 48) :
    |pct t T - exactShare t T| ≤ 201 / 2 ^ 53 := by
  rcases Nat.eq_zero_or_pos t with ht | ht
  · subst ht
    simp only [pct, exactShare, Nat.cast_zero, zero_div, nearest_zero, zero_mul, sub_self, abs_zero]
    positivity
  · have hTq : (0 : ℚ) < T := by exact_mod_cast hT
    have hr1 : (t : ℚ) / T ≤ 1 := by
      rw [div_le_one hTq]
      exact_mod_cast hle
    have hr0 : (0 : ℚ) ≤ (t : ℚ) / T := by positivity
    have hs := ratio_scaled_ge ht hT hB
    have h1 := abs_le.1 (nearest_rel _ hs)
    have hn1 := nearest_div_le_one hT hle
    have hp : (2 : ℚ) ^ 52 ≤ nearest ((t : ℚ) / T) * 100 * 2 ^ 1074 := by
      have hge : (t : ℚ) / T ≤ nearest ((t : ℚ) / T) * 100 := by
        have : (t : ℚ) / T / 2 ^ 53 ≤ (t : ℚ) / T := div_le_self hr0 (by norm_num)
        linarith [h1.1]
      calc (2 : ℚ) ^ 52 ≤ (t : ℚ) / T * 2 ^ 1074 := hs
        _ ≤ nearest ((t : ℚ) / T) * 100 * 2 ^ 1074 :=
          mul_le_mul_of_nonneg_right hge (by positivity)
    have h2 := abs_le.1 (nearest_rel _ hp)
    have hr53 : (t : ℚ) / T / 2 ^ 53 ≤ 1 / 2 ^ 53 :=
      div_le_div_of_nonneg_right hr1 (by norm_num)
    have hp53 : nearest ((t : ℚ) / T) * 100 / 2 ^ 53 ≤ 100 / 2 ^ 53 :=
      div_le_div_of_nonneg_right (by linarith) (by norm_num)
    unfold pct exactShare
    rw [abs_le]
    constructor <;> linarith [h1.1, h1.2, h2.1, h2.2]

/-- Below `2 ^ 48` a share under 70 is computed under 70. -/
theorem pct_lt_seventy {t T : Nat} (hT : 0 < T) (hle : t ≤ T) (hB : T ≤ 2 ^ 48)
    (h : exactShare t T < 70) : pct t T < 70 := by
  have hTq : (0 : ℚ) < T := by exact_mod_cast hT
  have hBq : (T : ℚ) ≤ 2 ^ 48 := by exact_mod_cast hB
  have hm := exactShare_mul (t := t) hT
  have h1 : (100 : ℚ) * t < 70 * T := by
    rw [← hm]
    exact mul_lt_mul_of_pos_right h hTq
  have h2 : 100 * t < 70 * T := by exact_mod_cast h1
  have h3 : 10 * t + 1 ≤ 7 * T := by omega
  have h4 : (10 : ℚ) * t + 1 ≤ 7 * T := by exact_mod_cast h3
  have herr := (abs_le.1 (pct_sub_exactShare hT hle hB)).2
  have h5 : (pct t T - exactShare t T) * T ≤ 201 / 2 ^ 53 * T :=
    mul_le_mul_of_nonneg_right herr hTq.le
  have h6 : (201 : ℚ) / 2 ^ 53 * T ≤ 201 / 2 ^ 53 * 2 ^ 48 :=
    mul_le_mul_of_nonneg_left hBq (by norm_num)
  have h7 : (201 : ℚ) / 2 ^ 53 * 2 ^ 48 < 10 := by norm_num
  have h8 : pct t T * T < 70 * T := by
    have : (pct t T - exactShare t T) * T = pct t T * T - exactShare t T * T := sub_mul _ _ _
    linarith
  exact lt_of_mul_lt_mul_right h8 hTq.le

theorem pct_ge_seventy {t T : Nat} (h : 70 ≤ exactShare t T) : 70 ≤ pct t T := by
  have h1 : (7 : ℚ) / 10 ≤ (t : ℚ) / T := by
    unfold exactShare at h
    linarith
  exact pct_seven_tenths ▸ pct_mono_left (by norm_num) h1

/-- Below `2 ^ 44` the displayed integer is an integer nearest to the exact share. -/
theorem round_pct_nearest {t T : Nat} (hT : 0 < T) (hle : t ≤ T) (hB : T ≤ 2 ^ 44) :
    |((⌊pct t T + 1 / 2⌋ : ℤ) : ℚ) - exactShare t T| ≤ 1 / 2 := by
  have hTq : (0 : ℚ) < T := by exact_mod_cast hT
  have hBq : (T : ℚ) ≤ 2 ^ 44 := by exact_mod_cast hB
  have hm := exactShare_mul (t := t) hT
  have herr := abs_le.1 (pct_sub_exactShare hT hle (hB.trans (by norm_num)))
  have hk1 : ((⌊pct t T + 1 / 2⌋ : ℤ) : ℚ) ≤ pct t T + 1 / 2 := Int.floor_le _
  have hk2 : pct t T + 1 / 2 < ((⌊pct t T + 1 / 2⌋ : ℤ) : ℚ) + 1 := Int.lt_floor_add_one _
  have h6 : (201 : ℚ) / 2 ^ 53 * T ≤ 201 / 2 ^ 53 * 2 ^ 44 :=
    mul_le_mul_of_nonneg_left hBq (by norm_num)
  have h7 : (2 : ℚ) * (201 / 2 ^ 53 * 2 ^ 44) < 1 := by norm_num
  generalize ⌊pct t T + 1 / 2⌋ = k at hk1 hk2 ⊢
  rw [abs_le]
  constructor
  · by_contra hc
    have hc' : (k : ℚ) + 1 / 2 < exactShare t T := by linarith [not_le.1 hc]
    have h1 : ((k : ℚ) + 1 / 2) * T < exactShare t T * T := mul_lt_mul_of_pos_right hc' hTq
    have h2 : (2 * (k : ℚ) + 1) * T < 200 * t := by linarith
    have h3 : (2 * k + 1) * (T : ℤ) < 200 * (t : ℤ) := by exact_mod_cast h2
    have h4 : (2 * k + 1) * (T : ℤ) + 1 ≤ 200 * (t : ℤ) := by omega
    have h5 : (2 * (k : ℚ) + 1) * T + 1 ≤ 200 * t := by exact_mod_cast h4
    have h8 : exactShare t T < (k : ℚ) + 1 / 2 + 201 / 2 ^ 53 := by linarith [herr.1]
    have h9 : exactShare t T * T < ((k : ℚ) + 1 / 2 + 201 / 2 ^ 53) * T :=
      mul_lt_mul_of_pos_right h8 hTq
    linarith
  · by_contra hc
    have hc' : exactShare t T < (k : ℚ) - 1 / 2 := by linarith [not_le.1 hc]
    have h1 : exactShare t T * T < ((k : ℚ) - 1 / 2) * T := mul_lt_mul_of_pos_right hc' hTq
    have h2 : 200 * (t : ℚ) < (2 * (k : ℚ) - 1) * T := by linarith
    have h3 : 200 * (t : ℤ) < (2 * k - 1) * (T : ℤ) := by exact_mod_cast h2
    have h4 : 200 * (t : ℤ) + 1 ≤ (2 * k - 1) * (T : ℤ) := by omega
    have h5 : 200 * (t : ℚ) + 1 ≤ (2 * (k : ℚ) - 1) * T := by exact_mod_cast h4
    have h8 : (k : ℚ) - 1 / 2 - 201 / 2 ^ 53 ≤ exactShare t T := by linarith [herr.2]
    have h9 : ((k : ℚ) - 1 / 2 - 201 / 2 ^ 53) * T ≤ exactShare t T * T :=
      mul_le_mul_of_nonneg_right h8 hTq.le
    linarith


/-! ## Classification -/

/-- C1 (failing input): with scores 11 and 9 the exact shares are 55 and 45, exactly 10 apart,
but the computed shares are `55 + 2 ^ (-47)` and `45`, so the test `<= 10` fails and the result
is `terapia` with confidence `moderate` instead of `both`. -/
theorem tie_boundary_eleven_nine :
    exactShare 11 (11 + 9) = 55 ∧ exactShare 9 (11 + 9) = 45 ∧
    percentage (JSNum.ofNat 11) ((JSNum.ofNat 11).add (JSNum.ofNat 9))
      = .fin (55 + 1 / 2 ^ 47) ∧
    percentage (JSNum.ofNat 9) ((JSNum.ofNat 11).add (JSNum.ofNat 9)) = .fin 45 ∧
    (calculateResults
        ⟨1, 3, [("q1", "a")], none, ⟨[("q1", ⟨[("a", ⟨some 11, some 9⟩)]⟩)]⟩⟩).results.map
      (fun r => (r.recommendation, r.confidence, r.scores))
      = some (.terapia, .moderate, ⟨.fin 55, .fin 45⟩) := by
  decide!

/-- C2 (as amended): for integer scores with positive total at most `2 ^ 48` whose exact shares
differ by more than 10 points, the recommendation is the category with the higher share, and
the confidence is `high` when that share is at least 70 and `moderate` otherwise. -/
theorem single_recommendation (s : ScoreVector) (quizData : QuizData)
    (hT : 0 < s.terapia + s.evolutiva) (hB : s.terapia + s.evolutiva ≤ 2 ^ 48)
    (hgap : 10 < |exactShare s.terapia (s.terapia + s.evolutiva)
      - exactShare s.evolutiva (s.terapia + s.evolutiva)|) :
    (classify s.toScores quizData).recommendation
      = (if s.evolutiva < s.terapia then .terapia else .evolutiva) ∧
    (classify s.toScores quizData).confidence
      = (if 70 ≤ max (exactShare s.terapia (s.terapia + s.evolutiva))
            (exactShare s.evolutiva (s.terapia + s.evolutiva)) then .high else .moderate) := by
  have hB53 : s.terapia + s.evolutiva < 2 ^ 53 := lt_of_le_of_lt hB (by norm_num)
  refine ⟨recommendation_of_gap s quizData hT hB53 hgap.le, ?_⟩
  have hTq : (0 : ℚ) < ((s.terapia + s.evolutiva : ℕ) : ℚ) := by exact_mod_cast hT
  have hle1 := Nat.le_add_right s.terapia s.evolutiva
  have hle2 := Nat.le_add_left s.evolutiva s.terapia
  rw [classify_confidence s quizData hT hB53]
  rcases gap_cases s.terapia s.evolutiva hT hgap.le with ⟨hlt, ha, hb⟩ | ⟨hlt, ha, hb⟩
  · obtain ⟨h1, h2⟩ := far_apart ha hb
    have hmax : max (exactShare s.terapia (s.terapia + s.evolutiva))
        (exactShare s.evolutiva (s.terapia + s.evolutiva))
        = exactShare s.terapia (s.terapia + s.evolutiva) := by
      apply max_eq_left
      unfold exactShare
      linarith
    rw [if_neg (not_le.2 h2), if_pos h1, hmax]
    by_cases h70 : 70 ≤ exactShare s.terapia (s.terapia + s.evolutiva)
    · rw [if_pos h70, if_pos (pct_ge_seventy h70)]
    · rw [if_neg h70, if_neg (not_le.2 (pct_lt_seventy hT hle1 hB (not_le.1 h70)))]
  · obtain ⟨h1, h2⟩ := far_apart ha hb
    have hmax : max (exactShare s.terapia (s.terapia + s.evolutiva))
        (exactShare s.evolutiva (s.terapia + s.evolutiva))
        = exactShare s.evolutiva (s.terapia + s.evolutiva) := by
      apply max_eq_right
      unfold exactShare
      linarith
    rw [abs_sub_comm, if_neg (not_le.2 h2), if_neg (not_lt.2 h1.le), hmax]
    by_cases h70 : 70 ≤ exactShare s.evolutiva (s.terapia + s.evolutiva)
    · rw [if_pos h70, if_pos (pct_ge_seventy h70)]
    · rw [if_neg h70, if_neg (not_le.2 (pct_lt_seventy hT hle2 hB (not_le.1 h70)))]

theorem single_recommendation_witness :
    ((classify (ScoreVector.toScores ⟨7, 3⟩) []).recommendation = .terapia ∧ (classify (ScoreVector.toScores ⟨7, 3⟩) []).confidence = .high) ∧
    ((classify (ScoreVector.toScores ⟨69, 31⟩) []).recommendation = .terapia ∧
      (classify (ScoreVector.toScores ⟨69, 31⟩) []).confidence = .moderate) ∧
    ((classify (ScoreVector.toScores ⟨4499, 5501⟩) []).recommendation = .evolutiva ∧
      (classify (ScoreVector.toScores ⟨4499, 5501⟩) []).confidence = .moderate) :=
  ⟨by
      have h := single_recommendation ⟨7, 3⟩ [] (by norm_num) (by norm_num)
        (by norm_num [exactShare, abs_of_pos])
      norm_num [exactShare] at h
      exact h,
    by
      have h := single_recommendation ⟨69, 31⟩ [] (by norm_num) (by norm_num)
        (by norm_num [exactShare, abs_of_pos])
      norm_num [exactShare] at h
      exact h,
    by
      have h := single_recommendation ⟨4499, 5501⟩ [] (by norm_num) (by norm_num)
        (by norm_num [exactShare, abs_of_neg])
      norm_num [exactShare] at h
      exact h⟩

/-- C2 (counterexample): scores 788129934789843 and 337769972052790 have exact shares more
than 10 points apart, the higher one below 70, and yet the confidence is `high`. -/
theorem single_recommendation_large_scores :
    10 < |exactShare 788129934789843 (788129934789843 + 337769972052790)
      - exactShare 337769972052790 (788129934789843 + 337769972052790)| ∧
    exactShare 788129934789843 (788129934789843 + 337769972052790) < 70 ∧
    (classify (ScoreVector.toScores ⟨788129934789843, 337769972052790⟩) []).recommendation
      = .terapia ∧
    (classify (ScoreVector.toScores ⟨788129934789843, 337769972052790⟩) []).confidence
      = .high := by
  decide!

/-- C4 (counterexample): on the empty answer set, whose scores are both zero, the method does
not fail: it assigns a result with recommendation `evolutiva` and confidence `moderate`. -/
theorem empty_answers_classified :
    accumulateScores quizConfig [] = ⟨JSNum.ofNat 0, JSNum.ofNat 0⟩ ∧
    (calculateResults ⟨1, 3, [], none, quizConfig⟩).results.map
      (fun r => (r.recommendation, r.confidence)) = some (.evolutiva, .moderate) := by
  decide!

/-- C4 (as amended): when both accumulated scores are zero, `calculateResults` does not fail; it
assigns a result whose recommendation is `evolutiva`, whose confidence is `moderate` and whose
two displayed shares are `NaN`. -/
theorem zero_scores_result (self : QuizState)
    (h : accumulateScores self.quizConfig self.quizData = ⟨JSNum.ofNat 0, JSNum.ofNat 0⟩) :
    ∃ r, (calculateResults self).results = some r ∧ r.recommendation = .evolutiva ∧
      r.confidence = .moderate ∧ r.scores = ⟨.nan, .nan⟩ := by
  refine ⟨_, rfl, ?_⟩
  rw [h]
  have ht : (JSNum.ofNat 0).add (JSNum.ofNat 0) = JSNum.ofNat 0 := add_ofNat (by norm_num)
  have hp : percentage (JSNum.ofNat 0) (JSNum.ofNat 0) = .nan := by
    simp [percentage, JSNum.ofNat, JSNum.div, JSNum.mul]
  simp only [classify, ht, hp]
  simp [recommend, closeMatch, JSNum.sub, JSNum.abs, JSNum.le, JSNum.gt, JSNum.ge, JSNum.round,
    JSNum.ofNat]

theorem zero_scores_result_witness :
    ∃ r, (calculateResults ⟨1, 3, [("q1", "other")], none, quizConfig⟩).results = some r ∧
      r.recommendation = .evolutiva ∧ r.confidence = .moderate ∧ r.scores = ⟨.nan, .nan⟩ :=
  zero_scores_result ⟨1, 3, [("q1", "other")], none, quizConfig⟩ (by decide)

/-- C7 (as amended): for integer scores with positive total at most `2 ^ 44`, both displayed
shares are integers, each within one half of the exact share score ÷ total × 100, whatever the
recommendation is. -/
theorem displayed_shares (s : ScoreVector) (quizData : QuizData)
    (hT : 0 < s.terapia + s.evolutiva) (hB : s.terapia + s.evolutiva ≤ 2 ^ 44) :
    ∃ kt ke : ℤ, (classify s.toScores quizData).scores = ⟨.fin kt, .fin ke⟩ ∧
      |(kt : ℚ) - exactShare s.terapia (s.terapia + s.evolutiva)| ≤ 1 / 2 ∧
      |(ke : ℚ) - exactShare s.evolutiva (s.terapia + s.evolutiva)| ≤ 1 / 2 :=
  ⟨_, _, classify_scores s quizData hT (lt_of_le_of_lt hB (by norm_num)),
    round_pct_nearest hT (Nat.le_add_right _ _) hB,
    round_pct_nearest hT (Nat.le_add_left _ _) hB⟩

theorem displayed_shares_witness :
    ∃ kt ke : ℤ, (classify (ScoreVector.toScores ⟨5, 3⟩) []).scores = ⟨.fin kt, .fin ke⟩ ∧
      |(kt : ℚ) - exactShare 5 (5 + 3)| ≤ 1 / 2 ∧ |(ke : ℚ) - exactShare 3 (5 + 3)| ≤ 1 / 2 :=
  displayed_shares ⟨5, 3⟩ [] (by norm_num) (by norm_num)

/-- C7 (counterexample): for scores 49609964645392 and 20758779532469 the exact terapia share
is below 70.5, so its nearest integer is 70, but the displayed share is 71. -/
theorem displayed_share_large_scores :
    (classify (ScoreVector.toScores ⟨49609964645392, 20758779532469⟩) []).scores.terapia
      = .fin 71 ∧
    1 / 2 < |(71 : ℚ) - exactShare 49609964645392 (49609964645392 + 20758779532469)| := by
  decide!

theorem pct_congr {t T t' T' : Nat} (h : exactShare t T = exactShare t' T') :
    pct t T = pct t' T' := by
  have h1 : (t : ℚ) / T = (t' : ℚ) / T' := by
    unfold exactShare at h
    linarith
  unfold pct
  rw [h1]

theorem exactShare_add {t e : Nat} (hT : 0 < t + e) :
    exactShare t (t + e) + exactShare e (t + e) = 100 := by
  have hTq : (t : ℚ) + e ≠ 0 := by exact_mod_cast hT.ne'
  unfold exactShare
  push_cast
  field_simp
  ring

/-- C8 (as amended): for integer scores with positive totals below `2 ^ 53`, the
recommendation and the confidence depend on the scores only through the exact shares, not
through the displayed integers; whenever the exact shares differ by more than 10 points the
recommendation is the category with the larger score and not `both`, also when the displayed
shares differ by exactly 10. -/
theorem decision_on_unrounded_shares (s s' : ScoreVector) (quizData quizData' : QuizData)
    (hT : 0 < s.terapia + s.evolutiva) (hT' : 0 < s'.terapia + s'.evolutiva)
    (hB : s.terapia + s.evolutiva < 2 ^ 53) (hB' : s'.terapia + s'.evolutiva < 2 ^ 53)
    (hsame : exactShare s.terapia (s.terapia + s.evolutiva)
      = exactShare s'.terapia (s'.terapia + s'.evolutiva)) :
    (classify s.toScores quizData).recommendation
      = (classify s'.toScores quizData').recommendation ∧
    (classify s.toScores quizData).confidence = (classify s'.toScores quizData').confidence ∧
    (10 < |exactShare s.terapia (s.terapia + s.evolutiva)
        - exactShare s.evolutiva (s.terapia + s.evolutiva)| →
      (classify s.toScores quizData).recommendation
        = (if s.evolutiva < s.terapia then .terapia else .evolutiva) ∧
      (classify s.toScores quizData).recommendation ≠ .both) := by
  have hsame' : exactShare s.evolutiva (s.terapia + s.evolutiva)
      = exactShare s'.evolutiva (s'.terapia + s'.evolutiva) := by
    have h1 := exactShare_add hT
    have h2 := exactShare_add hT'
    linarith
  refine ⟨?_, ?_, ?_⟩
  · rw [classify_recommendation s quizData hT hB, classify_recommendation s' quizData' hT' hB',
      pct_congr hsame, pct_congr hsame']
  · rw [classify_confidence s quizData hT hB, classify_confidence s' quizData' hT' hB',
      pct_congr hsame, pct_congr hsame']
  · intro hgap
    have h := recommendation_of_gap s quizData hT hB hgap.le
    refine ⟨h, ?_⟩
    rw [h]
    split_ifs <;> simp

theorem decision_on_unrounded_shares_witness :
    (classify (ScoreVector.toScores ⟨41, 33⟩) []).scores = ⟨.fin 55, .fin 45⟩ ∧
    (classify (ScoreVector.toScores ⟨41, 33⟩) []).recommendation
      = (classify (ScoreVector.toScores ⟨82, 66⟩) []).recommendation ∧
    (classify (ScoreVector.toScores ⟨41, 33⟩) []).confidence
      = (classify (ScoreVector.toScores ⟨82, 66⟩) []).confidence ∧
    (classify (ScoreVector.toScores ⟨41, 33⟩) []).recommendation = .terapia ∧
    (classify (ScoreVector.toScores ⟨41, 33⟩) []).recommendation ≠ .both := by
  have h := decision_on_unrounded_shares ⟨41, 33⟩ ⟨82, 66⟩ [] [] (by norm_num) (by norm_num)
    (by norm_num) (by norm_num) (by norm_num [exactShare])
  have hgap : (10 : ℚ) < |exactShare 41 (41 + 33) - exactShare 33 (41 + 33)| := by
    norm_num [exactShare, abs_of_pos]
  have h3 := h.2.2 hgap
  norm_num at h3
  exact ⟨by decide!, h.1, h.2.1, h3.1, h3.2⟩

/-- C8 (counterexample): scores 6192449487634434 and 5066549580791809 are binary64 integers
whose total, 11258999068426243, is above `2 ^ 53` and is rounded to 11258999068426244 by the
addition.  The exact shares differ by more than 10 points and the displayed shares are 55 and
45, yet the recommendation is `both`. -/
theorem decision_large_total :
    10 < |exactShare 6192449487634434 (6192449487634434 + 5066549580791809)
      - exactShare 5066549580791809 (6192449487634434 + 5066549580791809)| ∧
    (JSNum.ofNat 6192449487634434).add (JSNum.ofNat 5066549580791809)
      = JSNum.ofNat 11258999068426244 ∧
    (classify (ScoreVector.toScores ⟨6192449487634434, 5066549580791809⟩) []).scores
      = ⟨.fin 55, .fin 45⟩ ∧
    (classify (ScoreVector.toScores ⟨6192449487634434, 5066549580791809⟩) []).recommendation
      = .both := by
  decide!

/-! ## The result as a function of the answers -/

/-- C11: the result that `calculateResults` assigns depends on `quizData` and `quizConfig` only:
two states with the same answers and configuration get the same result, whatever their
previous result and step counters, and a second run on its own outcome changes nothing. -/
theorem calculateResults_deterministic (s1 s2 : QuizState)
    (hdata : s1.quizData = s2.quizData) (hconfig : s1.quizConfig = s2.quizConfig) :
    (calculateResults s1).results = (calculateResults s2).results ∧
    calculateResults (calculateResults s1) = calculateResults s1 := by
  constructor
  · simp only [calculateResults, hdata, hconfig]
  · rfl

theorem calculateResults_deterministic_witness :
    (calculateResults ⟨1, 3, [("q1", "stress"), ("q2", "skills")], none, quizConfig⟩).results
      = (calculateResults
          (calculateResults ⟨3, 3, [("q1", "stress"), ("q2", "skills")], none, quizConfig⟩)).results ∧
    calculateResults
        (calculateResults ⟨1, 3, [("q1", "stress"), ("q2", "skills")], none, quizConfig⟩)
      = calculateResults ⟨1, 3, [("q1", "stress"), ("q2", "skills")], none, quizConfig⟩ :=
  calculateResults_deterministic
    ⟨1, 3, [("q1", "stress"), ("q2", "skills")], none, quizConfig⟩
    (calculateResults ⟨3, 3, [("q1", "stress"), ("q2", "skills")], none, quizConfig⟩) rfl rfl

theorem nearest_fifty : nearest (nearest (1 / 2) * 100) = 50 := by decide!

theorem pct_half {t : Nat} (ht : 0 < t) : pct t (t + t) = 50 := by
  have htq : (t : ℚ) ≠ 0 := by exact_mod_cast ht.ne'
  have h : (t : ℚ) / ((t + t : ℕ) : ℚ) = 1 / 2 := by
    push_cast
    field_simp
    ring
  unfold pct
  rw [h, nearest_fifty]

theorem accumulateScores_balanced :
    accumulateScores quizConfig [("q1", "stress"), ("q2", "skills"), ("q3", "light")]
      = ScoreVector.toScores ⟨6, 6⟩ :=
  (accumulateScores_eq_sum quizConfig _ (by decide) (by decide)).trans
    (congrArg ScoreVector.toScores (by decide))

/-- C14: when the accumulated terapia and evolutiva scores are the same positive integer, with
their total below `2 ^ 53`, the result shows 50 and 50 and recommends `both` with confidence
`moderate`.  The configured questions give every answer set scores of at most 9. -/
theorem balanced_answers (self : QuizState) (t : Nat)
    (hs : accumulateScores self.quizConfig self.quizData = ScoreVector.toScores ⟨t, t⟩)
    (hpos : 0 < t) (hB : t + t < 2 ^ 53) :
    ∃ r, (calculateResults self).results = some r ∧ r.recommendation = .both ∧
      r.confidence = .moderate ∧ r.scores = ⟨.fin 50, .fin 50⟩ := by
  refine ⟨_, rfl, ?_⟩
  rw [hs]
  have hT : 0 < (ScoreVector.mk t t).terapia + (ScoreVector.mk t t).evolutiva :=
    Nat.add_pos_left hpos t
  have hp : pct t (t + t) = 50 := pct_half hpos
  refine ⟨?_, ?_, ?_⟩
  · rw [classify_recommendation _ _ hT hB]
    simp only [hp, sub_self, abs_zero, nearest_zero]
    norm_num
  · rw [classify_confidence _ _ hT hB]
    simp only [hp, sub_self, abs_zero, nearest_zero]
    norm_num
  · rw [classify_scores _ _ hT hB]
    simp only [hp]
    norm_num

theorem balanced_answers_witness :
    accumulateScores quizConfig [("q1", "stress"), ("q2", "skills"), ("q3", "light")]
      = ScoreVector.toScores ⟨6, 6⟩ ∧
    ∃ r, (calculateResults
        ⟨3, 3, [("q1", "stress"), ("q2", "skills"), ("q3", "light")], none, quizConfig⟩).results
        = some r ∧ r.recommendation = .both ∧ r.confidence = .moderate ∧
      r.scores = ⟨.fin 50, .fin 50⟩ :=
  ⟨accumulateScores_balanced,
    balanced_answers ⟨3, 3, [("q1", "stress"), ("q2", "skills"), ("q3", "light")], none, quizConfig⟩
      6 accumulateScores_balanced (by norm_num) (by norm_num)⟩

/-- C15: the confidence `low` is never assigned: for every state, `calculateResults` assigns a
result whose confidence is `moderate` or `high` (also when both scores are zero). -/
theorem confidence_never_low (self : QuizState) :
    ∃ r, (calculateResults self).results = some r ∧
      (r.confidence = .moderate ∨ r.confidence = .high) := by
  refine ⟨_, rfl, ?_⟩
  simp only [classify, recommend]
  split_ifs <;> simp

/-- C16: `calculateResults` leaves `quizData`, `quizConfig`, `currentStep` and `totalSteps` as
they were; the only field it assigns is `results`, with the record it has just built. -/
theorem calculateResults_frame (self : QuizState) :
    (calculateResults self).quizData = self.quizData ∧
    (calculateResults self).quizConfig = self.quizConfig ∧
    (calculateResults self).currentStep = self.currentStep ∧
    (calculateResults self).totalSteps = self.totalSteps ∧
    (calculateResults self).results
      = some (classify (accumulateScores self.quizConfig self.quizData) self.quizData) :=
  ⟨rfl, rfl, rfl, rfl, rfl⟩


/-! ## The wizard and the answers it collects -/

theorem lookup_setKey_self (l : List (String × String)) (k v : String) :
    (setKey l k v).lookup k = some v := by
  induction l with
  | nil => simp [setKey, List.lookup]
  | cons p rest ih =>
    obtain ⟨k', v'⟩ := p
    by_cases h : k' = k
    · subst h
      simp [setKey, List.lookup]
    · have hb : (k' == k) = false := by simpa using h
      have hb' : (k == k') = false := by simpa using fun h' => h h'.symm
      simp only [setKey, hb, List.lookup, hb']
      exact ih

theorem lookup_setKey_of_ne (l : List (String × String)) (k v : String) {k' : String}
    (hne : k' ≠ k) : (setKey l k v).lookup k' = l.lookup k' := by
  induction l with
  | nil =>
    have hb : (k' == k) = false := by simpa using hne
    simp [setKey, List.lookup, hb]
  | cons p rest ih =>
    obtain ⟨k₀, v₀⟩ := p
    by_cases h : k₀ = k
    · subst h
      have hb : (k' == k₀) = false := by simpa using hne
      simp [setKey, List.lookup, hb]
    · have hb : (k₀ == k) = false := by simpa using h
      simp only [setKey, hb, List.lookup]
      by_cases h2 : k' = k₀
      · subst h2
        simp
      · have hb2 : (k' == k₀) = false := by simpa using h2
        simp only [hb2]
        exact ih

theorem mem_keys_setKey (l : List (String × String)) (k v k' : String) :
    k' ∈ (setKey l k v).map Prod.fst ↔ k' = k ∨ k' ∈ l.map Prod.fst := by
  induction l with
  | nil => simp [setKey]
  | cons p rest ih =>
    obtain ⟨k₀, v₀⟩ := p
    by_cases h : k₀ = k
    · subst h
      simp [setKey]
    · have hb : (k₀ == k) = false := by simpa using h
      simp only [setKey, hb, Bool.false_eq_true, if_false, List.map_cons, List.mem_cons, ih]
      tauto

theorem distinctKeys_setKey {l : List (String × String)} (hd : DistinctKeys l) (k v : String) :
    DistinctKeys (setKey l k v) := by
  induction l with
  | nil => simp [setKey, DistinctKeys]
  | cons p rest ih =>
    obtain ⟨k₀, v₀⟩ := p
    simp only [DistinctKeys, List.map_cons, List.nodup_cons] at hd
    by_cases h : k₀ = k
    · subst h
      simpa [setKey, DistinctKeys] using hd
    · have hb : (k₀ == k) = false := by simpa using h
      simp only [setKey, hb, Bool.false_eq_true, if_false, DistinctKeys, List.map_cons,
        List.nodup_cons]
      refine ⟨?_, ih hd.2⟩
      rw [mem_keys_setKey]
      rintro (h1 | h1)
      · exact h h1
      · exact hd.1 h1

/-- C17: saving a step with the option `v` selected sets the entry of that step's question to
`v`, whatever it held before, keeps the entry of every other key, the distinctness of the keys
and the rest of the state; with no option selected the state is unchanged. -/
theorem saveCurrentStepData_entry (self : QuizState) (v : String) :
    (saveCurrentStepData self (some v)).quizData.lookup (stepKey self.currentStep) = some v ∧
    (∀ k, k ≠ stepKey self.currentStep →
      (saveCurrentStepData self (some v)).quizData.lookup k = self.quizData.lookup k) ∧
    (DistinctKeys self.quizData → DistinctKeys (saveCurrentStepData self (some v)).quizData) ∧
    (saveCurrentStepData self (some v)).currentStep = self.currentStep ∧
    saveCurrentStepData self none = self :=
  ⟨lookup_setKey_self _ _ _, fun _ hk => lookup_setKey_of_ne _ _ _ hk,
    fun hd => distinctKeys_setKey hd _ _, rfl, rfl⟩

theorem stepKey_mem {c : Nat} (h1 : 1 ≤ c) (h3 : c ≤ 3) : stepKey c ∈ ["q1", "q2", "q3"] := by
  interval_cases c <;> decide

theorem isSome_lookup_setKey {l : List (String × String)} {k' : String}
    (h : (l.lookup k').isSome) (k v : String) : ((setKey l k v).lookup k').isSome := by
  by_cases hk : k' = k
  · subst hk
    rw [lookup_setKey_self]
    rfl
  · rw [lookup_setKey_of_ne l k v hk]
    exact h

theorem wizardInvariant_init : WizardInvariant init := by
  refine ⟨by decide, by decide, rfl, ?_, by decide, by decide⟩
  intro j h1 h2
  have h3 : init.currentStep = 1 := rfl
  omega

theorem wizardInvariant_resetQuiz (s : QuizState) (h : WizardInvariant s) :
    WizardInvariant (resetQuiz s) := by
  obtain ⟨_, _, ht, _, _, _⟩ := h
  refine ⟨le_rfl, (by show 1 ≤ 3; decide), ht, ?_, (by show DistinctKeys []; decide),
    by simp [resetQuiz]⟩
  intro j h1 h2
  have h3 : (resetQuiz s).currentStep = 1 := rfl
  omega

theorem wizardInvariant_openModal (s : QuizState) (h : WizardInvariant s) :
    WizardInvariant (openModal s) := by
  unfold openModal
  split_ifs
  · exact wizardInvariant_resetQuiz s h
  · exact h

theorem wizardInvariant_prevStep (s : QuizState) (h : WizardInvariant s) :
    WizardInvariant (prevStep s) := by
  unfold prevStep
  split_ifs with hc
  · obtain ⟨h1, h3, ht, ha, hd, hk⟩ := h
    refine ⟨?_, ?_, ht, ?_, hd, hk⟩
    · show 1 ≤ s.currentStep - 1
      omega
    · show s.currentStep - 1 ≤ 3
      omega
    · intro j hj1 hj2
      have hj3 : j < s.currentStep - 1 := hj2
      exact ha j hj1 (by omega)
  · exact h

theorem wizardInvariant_save (s : QuizState) (h : WizardInvariant s) (v : String) :
    WizardInvariant (saveCurrentStepData s (some v)) ∧
    ((saveCurrentStepData s (some v)).quizData.lookup (stepKey s.currentStep)).isSome := by
  obtain ⟨h1, h3, ht, ha, hd, hk⟩ := h
  refine ⟨⟨h1, h3, ht, ?_, distinctKeys_setKey hd _ _, ?_⟩, ?_⟩
  · intro j hj1 hj2
    exact isSome_lookup_setKey (ha j hj1 hj2) _ _
  · intro k hmem
    rcases (mem_keys_setKey _ _ _ _).1 hmem with hk1 | hk1
    · rw [hk1]
      exact stepKey_mem h1 h3
    · exact hk k hk1
  · show ((setKey s.quizData (stepKey s.currentStep) v).lookup (stepKey s.currentStep)).isSome
    rw [lookup_setKey_self]
    rfl

theorem wizardInvariant_nextStep (s : QuizState) (h : WizardInvariant s)
    (selectedOption : Option String) : WizardInvariant (nextStep s selectedOption) := by
  cases selectedOption with
  | none => exact h
  | some v =>
    obtain ⟨⟨h1, h3, ht, ha, hd, hk⟩, hself⟩ := wizardInvariant_save s h v
    have hc : (saveCurrentStepData s (some v)).currentStep = s.currentStep := rfl
    simp only [nextStep, validateCurrentStep, Option.isSome_some, if_true]
    split_ifs with hlt
    · rw [ht] at hlt
      refine ⟨?_, ?_, ht, ?_, hd, hk⟩
      · show 1 ≤ (saveCurrentStepData s (some v)).currentStep + 1
        omega
      · show (saveCurrentStepData s (some v)).currentStep + 1 ≤ 3
        omega
      · intro j hj1 hj2
        have hj3 : j < (saveCurrentStepData s (some v)).currentStep + 1 := hj2
        by_cases hj : j = s.currentStep
        · rw [hj]
          exact hself
        · exact ha j hj1 (by omega)
    · exact ⟨h1, h3, ht, ha, hd, hk⟩

theorem wizardInvariant_submitQuiz (s : QuizState) (h : WizardInvariant s)
    (selectedOption : Option String) : WizardInvariant (submitQuiz s selectedOption) := by
  cases selectedOption with
  | none => exact h
  | some v => exact (wizardInvariant_save s h v).1

theorem wizardInvariant_step (s : QuizState) (h : WizardInvariant s) (e : Event) :
    WizardInvariant (step s e) := by
  cases e with
  | openModal => exact wizardInvariant_openModal s h
  | nextStep o => exact wizardInvariant_nextStep s h o
  | prevStep => exact wizardInvariant_prevStep s h
  | resetQuiz => exact wizardInvariant_resetQuiz s h
  | submitQuiz o => exact wizardInvariant_submitQuiz s h o

theorem wizardInvariant_foldl (events : List Event) (s : QuizState) (h : WizardInvariant s) :
    WizardInvariant (events.foldl step s) := by
  induction events generalizing s with
  | nil => exact h
  | cons e rest ih => exact ih _ (wizardInvariant_step s h e)

theorem wizardInvariant_run (events : List Event) : WizardInvariant (run events) :=
  wizardInvariant_foldl events init wizardInvariant_init

theorem mem_keys_of_isSome {l : List (String × String)} {k : String}
    (h : (l.lookup k).isSome) : k ∈ l.map Prod.fst := by
  obtain ⟨a, ha⟩ := Option.isSome_iff_exists.1 h
  exact List.mem_map_of_mem Prod.fst (mem_of_lookup ha)

/-- C18: in every state reached from `init` by `openModal`, `nextStep`, `prevStep`, `resetQuiz`
and `submitQuiz`, each step below the current one has an answer; so when `submitQuiz` is
called at the last step with an option selected, the answers it hands to `calculateResults`
are a table with exactly the keys `q1`, `q2` and `q3`. -/
theorem answers_complete_before_scoring (events : List Event) :
    (∀ j, 1 ≤ j → j < (run events).currentStep →
      ((run events).quizData.lookup (stepKey j)).isSome) ∧
    (∀ v, (run events).currentStep = (run events).totalSteps →
      submitQuiz (run events) (some v)
        = calculateResults (saveCurrentStepData (run events) (some v)) ∧
      DistinctKeys (saveCurrentStepData (run events) (some v)).quizData ∧
      ∀ k, k ∈ (saveCurrentStepData (run events) (some v)).quizData.map Prod.fst
        ↔ k ∈ ["q1", "q2", "q3"]) := by
  have hinv := wizardInvariant_run events
  refine ⟨hinv.2.2.2.1, ?_⟩
  intro v hlast
  obtain ⟨⟨h1, h3, ht, ha, hd, hk⟩, hself⟩ := wizardInvariant_save (run events) hinv v
  refine ⟨rfl, hd, fun k => ⟨hk k, ?_⟩⟩
  intro hmem
  have hc : (saveCurrentStepData (run events) (some v)).currentStep = 3 := by
    show (run events).currentStep = 3
    rw [hlast]
    exact hinv.2.2.1
  have hq : k = stepKey 1 ∨ k = stepKey 2 ∨ k = stepKey 3 := by
    simpa using hmem
  rcases hq with hq | hq | hq
  · rw [hq]
    exact mem_keys_of_isSome (ha 1 le_rfl (by omega))
  · rw [hq]
    exact mem_keys_of_isSome (ha 2 (by omega) (by omega))
  · rw [hq]
    have h3' : (run events).currentStep = 3 := hc
    rw [h3'] at hself
    exact mem_keys_of_isSome hself


/-! ## The score vector -/

theorem add_zero_weight {w : Option Nat} (h : w.getD 0 = 0) :
    (JSNum.ofNat 0).add (weightValue w) = JSNum.ofNat 0 := by
  rw [weightValue_of_lt (by rw [h]; norm_num), h]
  exact add_ofNat (by norm_num)

/-- A score to which every selected answer adds the weight 0 keeps the value 0. -/
theorem foldl_addEntry_terapia (config : QuizConfig) (l : List (String × String))
    (h : ∀ e ∈ l, ∀ w, selectedWeight config e = some w → w.terapia.getD 0 = 0)
    (scores : Scores) (hs : scores.terapia = JSNum.ofNat 0) :
    (l.foldl (addEntry config) scores).terapia = JSNum.ofNat 0 := by
  induction l generalizing scores with
  | nil => exact hs
  | cons e rest ih =>
    rw [List.foldl_cons]
    apply ih (fun x hx => h x (List.mem_cons_of_mem _ hx))
    cases hsel : selectedWeight config e with
    | none => simpa [addEntry, hsel] using hs
    | some w =>
      have hw := h e (List.mem_cons_self _ _) w hsel
      simp only [addEntry, hsel, hs, add_zero_weight hw]

theorem foldl_addEntry_evolutiva (config : QuizConfig) (l : List (String × String))
    (h : ∀ e ∈ l, ∀ w, selectedWeight config e = some w → w.evolutiva.getD 0 = 0)
    (scores : Scores) (hs : scores.evolutiva = JSNum.ofNat 0) :
    (l.foldl (addEntry config) scores).evolutiva = JSNum.ofNat 0 := by
  induction l generalizing scores with
  | nil => exact hs
  | cons e rest ih =>
    rw [List.foldl_cons]
    apply ih (fun x hx => h x (List.mem_cons_of_mem _ hx))
    cases hsel : selectedWeight config e with
    | none => simpa [addEntry, hsel] using hs
    | some w =>
      have hw := h e (List.mem_cons_self _ _) w hsel
      simp only [addEntry, hsel, hs, add_zero_weight hw]

/-- C12 (counterexample): a configuration whose weight vectors only mention `terapia` still
gives a score vector with the two keys `terapia` and `evolutiva`. -/
theorem score_keys_not_union :
    referencedCategories ⟨[("q1", ⟨[("a", ⟨some 3, none⟩)]⟩)]⟩ = ["terapia"] ∧
    (accumulateScores ⟨[("q1", ⟨[("a", ⟨some 3, none⟩)]⟩)]⟩ [("q1", "a")]).keys
      = ["terapia", "evolutiva"] ∧
    accumulateScores ⟨[("q1", ⟨[("a", ⟨some 3, none⟩)]⟩)]⟩ [("q1", "a")]
      = ScoreVector.toScores ⟨3, 0⟩ :=
  ⟨by decide, rfl,
    (accumulateScores_eq_sum _ _ (by decide) (by decide)).trans
      (congrArg ScoreVector.toScores (by decide))⟩

/-- C12 (as amended): for every configuration and answer set the score vector has exactly the
keys `terapia` and `evolutiva`; for the configuration assigned by `init` these are the
categories its weight vectors reference; and a category to which no selected answer gives a
weight has score 0. -/
theorem score_keys (config : QuizConfig) (quizData : QuizData) (hd : DistinctKeys quizData) :
    (accumulateScores config quizData).keys = ["terapia", "evolutiva"] ∧
    (∀ c, c ∈ referencedCategories quizConfig
      ↔ c ∈ (accumulateScores quizConfig quizData).keys) ∧
    ((∀ e ∈ quizData, ∀ w, selectedWeight config e = some w → w.terapia.getD 0 = 0) →
      (accumulateScores config quizData).terapia = JSNum.ofNat 0) ∧
    ((∀ e ∈ quizData, ∀ w, selectedWeight config e = some w → w.evolutiva.getD 0 = 0) →
      (accumulateScores config quizData).evolutiva = JSNum.ofNat 0) := by
  refine ⟨rfl, ?_, ?_, ?_⟩
  · intro c
    have h : referencedCategories quizConfig = ["terapia", "evolutiva"] := by decide
    rw [h]
    rfl
  · intro h
    rw [accumulateScores_eq_foldl config quizData hd]
    exact foldl_addEntry_terapia config quizData h _ rfl
  · intro h
    rw [accumulateScores_eq_foldl config quizData hd]
    exact foldl_addEntry_evolutiva config quizData h _ rfl

theorem score_keys_witness :
    (accumulateScores quizConfig [("q1", "other"), ("q7", "stress")]).keys
      = ["terapia", "evolutiva"] ∧
    (accumulateScores quizConfig [("q1", "other"), ("q7", "stress")]).terapia = JSNum.ofNat 0 ∧
    (accumulateScores quizConfig [("q1", "other"), ("q7", "stress")]).evolutiva
      = JSNum.ofNat 0 :=
  have h := score_keys quizConfig [("q1", "other"), ("q7", "stress")] (by decide)
  ⟨h.1, h.2.2.1 (by decide), h.2.2.2 (by decide)⟩

/-- C13: for every answer set (a table, whether complete, partial, empty or with unrecognized
keys) scored against the configured questions, both category scores are integers that are at
least 0: neither is `NaN`, an infinity, a fraction or negative. -/
theorem scores_nonneg (quizData : QuizData) (hd : DistinctKeys quizData) :
    ∃ t e : ℤ, accumulateScores quizConfig quizData = ⟨.fin t, .fin e⟩ ∧ 0 ≤ t ∧ 0 ≤ e := by
  refine ⟨((scoreSpec quizConfig quizData).terapia : ℤ),
    ((scoreSpec quizConfig quizData).evolutiva : ℤ), ?_, Int.natCast_nonneg _,
    Int.natCast_nonneg _⟩
  rw [accumulateScores_eq_sum quizConfig quizData hd (exactSums_quizConfig quizData hd)]
  simp only [ScoreVector.toScores, JSNum.ofNat, Int.cast_natCast]

theorem scores_nonneg_witness :
    ∃ t e : ℤ, accumulateScores quizConfig [("q1", "stress"), ("q2", "unknown"), ("q9", "x")]
      = ⟨.fin t, .fin e⟩ ∧ 0 ≤ t ∧ 0 ≤ e :=
  scores_nonneg [("q1", "stress"), ("q2", "unknown"), ("q9", "x")] (by decide)

/-! ## The configured quiz, complete answer sets -/

theorem nearest_ten : nearest 10 = 10 := by decide!

/-- Shares that are exactly less than 10 points apart are classified as `both`, for totals up
to `2 ^ 47`. -/
theorem both_of_small_gap (s : ScoreVector) (quizData : QuizData)
    (hT : 0 < s.terapia + s.evolutiva) (hB : s.terapia + s.evolutiva ≤ 2 ^ 47)
    (h : |exactShare s.terapia (s.terapia + s.evolutiva)
      - exactShare s.evolutiva (s.terapia + s.evolutiva)| < 10) :
    (classify s.toScores quizData).recommendation = .both ∧
    (classify s.toScores quizData).confidence = .moderate := by
  obtain ⟨t, e⟩ := s
  simp only at hT hB h ⊢
  have hB53 : (ScoreVector.mk t e).terapia + (ScoreVector.mk t e).evolutiva < 2 ^ 53 :=
    lt_of_le_of_lt hB (by norm_num)
  have hTq : (0 : ℚ) < ((t + e : ℕ) : ℚ) := by exact_mod_cast hT
  have hBq : ((t + e : ℕ) : ℚ) ≤ 2 ^ 47 := by exact_mod_cast hB
  have hB48 : t + e ≤ 2 ^ 48 := hB.trans (by norm_num)
  have hmt := exactShare_mul (t := t) hT
  have hme := exactShare_mul (t := e) hT
  have het := abs_le.1 (pct_sub_exactShare hT (Nat.le_add_right t e) hB48)
  have hee := abs_le.1 (pct_sub_exactShare hT (Nat.le_add_left e t) hB48)
  obtain ⟨hlo, hhi⟩ := abs_lt.1 h
  have h6 : (201 : ℚ) / 2 ^ 53 * ((t + e : ℕ) : ℚ) ≤ 201 / 2 ^ 53 * 2 ^ 47 :=
    mul_le_mul_of_nonneg_left hBq (by norm_num)
  have h7 : (2 : ℚ) * (201 / 2 ^ 53 * 2 ^ 47) < 10 := by norm_num
  have hup : (pct t (t + e) - pct e (t + e)) * ((t + e : ℕ) : ℚ) ≤ 10 * ((t + e : ℕ) : ℚ) := by
    have h1 : (exactShare t (t + e) - exactShare e (t + e)) * ((t + e : ℕ) : ℚ)
        < 10 * ((t + e : ℕ) : ℚ) := mul_lt_mul_of_pos_right hhi hTq
    have h2 : (100 : ℚ) * t - 100 * e < 10 * ((t + e : ℕ) : ℚ) := by
      rw [sub_mul, hmt, hme] at h1
      exact h1
    have h3 : (100 : ℤ) * t - 100 * e < 10 * ((t + e : ℕ) : ℤ) := by exact_mod_cast h2
    have h4 : (100 : ℤ) * t - 100 * e + 10 ≤ 10 * ((t + e : ℕ) : ℤ) := by omega
    have h5 : (100 : ℚ) * t - 100 * e + 10 ≤ 10 * ((t + e : ℕ) : ℚ) := by exact_mod_cast h4
    have h8 : (pct t (t + e) - exactShare t (t + e)) * ((t + e : ℕ) : ℚ)
        ≤ 201 / 2 ^ 53 * ((t + e : ℕ) : ℚ) := mul_le_mul_of_nonneg_right het.2 hTq.le
    have h9 : -(201 / 2 ^ 53) * ((t + e : ℕ) : ℚ)
        ≤ (pct e (t + e) - exactShare e (t + e)) * ((t + e : ℕ) : ℚ) :=
      mul_le_mul_of_nonneg_right (by linarith [hee.1]) hTq.le
    nlinarith [h8, h9, h5, hmt, hme, h6, h7]
  have hdown : (pct e (t + e) - pct t (t + e)) * ((t + e : ℕ) : ℚ) ≤ 10 * ((t + e : ℕ) : ℚ) := by
    have h1 : (exactShare e (t + e) - exactShare t (t + e)) * ((t + e : ℕ) : ℚ)
        < 10 * ((t + e : ℕ) : ℚ) := mul_lt_mul_of_pos_right (by linarith) hTq
    have h2 : (100 : ℚ) * e - 100 * t < 10 * ((t + e : ℕ) : ℚ) := by
      rw [sub_mul, hmt, hme] at h1
      exact h1
    have h3 : (100 : ℤ) * e - 100 * t < 10 * ((t + e : ℕ) : ℤ) := by exact_mod_cast h2
    have h4 : (100 : ℤ) * e - 100 * t + 10 ≤ 10 * ((t + e : ℕ) : ℤ) := by omega
    have h5 : (100 : ℚ) * e - 100 * t + 10 ≤ 10 * ((t + e : ℕ) : ℚ) := by exact_mod_cast h4
    have h8 : (pct e (t + e) - exactShare e (t + e)) * ((t + e : ℕ) : ℚ)
        ≤ 201 / 2 ^ 53 * ((t + e : ℕ) : ℚ) := mul_le_mul_of_nonneg_right hee.2 hTq.le
    have h9 : -(201 / 2 ^ 53) * ((t + e : ℕ) : ℚ)
        ≤ (pct t (t + e) - exactShare t (t + e)) * ((t + e : ℕ) : ℚ) :=
      mul_le_mul_of_nonneg_right (by linarith [het.1]) hTq.le
    nlinarith [h8, h9, h5, hmt, hme, h6, h7]
  have habs : |pct t (t + e) - pct e (t + e)| ≤ 10 := by
    rw [abs_le]
    constructor
    · have := le_of_mul_le_mul_right hdown hTq
      linarith
    · exact le_of_mul_le_mul_right hup hTq
  have hclose : nearest |pct t (t + e) - pct e (t + e)| ≤ 10 :=
    nearest_ten ▸ nearest_mono (abs_nonneg _) habs
  constructor
  · rw [classify_recommendation _ _ hT hB53]
    exact if_pos hclose
  · rw [classify_confidence _ _ hT hB53]
    exact if_pos hclose

theorem completeAnswers_scores {quizData : QuizData} (hc : CompleteAnswers quizData) :
    ∃ a1 ∈ optionsOf "q1", ∃ a2 ∈ optionsOf "q2", ∃ a3 ∈ optionsOf "q3",
      accumulateScores quizConfig quizData
        = (scoreSpec quizConfig [("q1", a1), ("q2", a2), ("q3", a3)]).toScores := by
  obtain ⟨a1, h1, a2, h2, a3, h3, hp⟩ := hc
  refine ⟨a1, h1, a2, h2, a3, h3, ?_⟩
  have hd' : DistinctKeys [("q1", a1), ("q2", a2), ("q3", a3)] := by
    simp [DistinctKeys]
  have hd : DistinctKeys quizData := (hp.map Prod.fst).nodup_iff.2 hd'
  rw [accumulateScores_eq_sum _ _ hd (exactSums_quizConfig _ hd), scoreSpec_perm quizConfig hp]

/-- A property of the exact sums that holds for the 48 combinations of configured options
holds for the integers that the loop returns on a complete answer set. -/
theorem forall_complete (P : ScoreVector → Prop)
    (h : ∀ a1 ∈ optionsOf "q1", ∀ a2 ∈ optionsOf "q2", ∀ a3 ∈ optionsOf "q3",
      P (scoreSpec quizConfig [("q1", a1), ("q2", a2), ("q3", a3)]))
    {quizData : QuizData} (hc : CompleteAnswers quizData) :
    ∃ s : ScoreVector, accumulateScores quizConfig quizData = s.toScores ∧ P s := by
  obtain ⟨a1, h1, a2, h2, a3, h3, heq⟩ := completeAnswers_scores hc
  exact ⟨_, heq, h a1 h1 a2 h2 a3 h3⟩

theorem complete_shares_le :
    ∀ a1 ∈ optionsOf "q1", ∀ a2 ∈ optionsOf "q2", ∀ a3 ∈ optionsOf "q3",
      0 < (scoreSpec quizConfig [("q1", a1), ("q2", a2), ("q3", a3)]).terapia
          + (scoreSpec quizConfig [("q1", a1), ("q2", a2), ("q3", a3)]).evolutiva ∧
      (scoreSpec quizConfig [("q1", a1), ("q2", a2), ("q3", a3)]).terapia
          + (scoreSpec quizConfig [("q1", a1), ("q2", a2), ("q3", a3)]).evolutiva ≤ 16 ∧
      13 * (scoreSpec quizConfig [("q1", a1), ("q2", a2), ("q3", a3)]).terapia
        ≤ 9 * ((scoreSpec quizConfig [("q1", a1), ("q2", a2), ("q3", a3)]).terapia
          + (scoreSpec quizConfig [("q1", a1), ("q2", a2), ("q3", a3)]).evolutiva) ∧
      13 * (scoreSpec quizConfig [("q1", a1), ("q2", a2), ("q3", a3)]).evolutiva
        ≤ 9 * ((scoreSpec quizConfig [("q1", a1), ("q2", a2), ("q3", a3)]).terapia
          + (scoreSpec quizConfig [("q1", a1), ("q2", a2), ("q3", a3)]).evolutiva) := by
  decide

theorem exactShare_le_of_mul_le {t T a b : Nat} (hT : 0 < T) (hb : 0 < b)
    (h : b * t ≤ a * T) : exactShare t T ≤ (a : ℚ) / b * 100 := by
  have hTq : (0 : ℚ) < T := by exact_mod_cast hT
  have hbq : (0 : ℚ) < b := by exact_mod_cast hb
  have hq : (b : ℚ) * t ≤ a * T := by exact_mod_cast h
  unfold exactShare
  have : (t : ℚ) / T ≤ (a : ℚ) / b := by
    rw [div_le_div_iff₀ hTq hbq]
    linarith
  linarith

/-- C22: with the configured quiz, every complete answer set (one configured option for each
of `q1`, `q2`, `q3`) gives integer scores of which both categories have a share of at most 9/13
of the total, below 70%, and the confidence is `moderate`. -/
theorem complete_quiz_moderate (quizData : QuizData) (hc : CompleteAnswers quizData) :
    ∃ s : ScoreVector, accumulateScores quizConfig quizData = s.toScores ∧
      exactShare s.terapia (s.terapia + s.evolutiva) ≤ 9 / 13 * 100 ∧
      exactShare s.evolutiva (s.terapia + s.evolutiva) ≤ 9 / 13 * 100 ∧
      (classify (accumulateScores quizConfig quizData) quizData).confidence = .moderate := by
  obtain ⟨s, hs, hT, h16, ht, he⟩ := forall_complete
    (fun s => 0 < s.terapia + s.evolutiva ∧ s.terapia + s.evolutiva ≤ 16 ∧
      13 * s.terapia ≤ 9 * (s.terapia + s.evolutiva) ∧
      13 * s.evolutiva ≤ 9 * (s.terapia + s.evolutiva)) complete_shares_le hc
  have h1 := exactShare_le_of_mul_le (a := 9) (b := 13) hT (by norm_num) ht
  have h2 := exactShare_le_of_mul_le (a := 9) (b := 13) hT (by norm_num) he
  have hB : s.terapia + s.evolutiva ≤ 2 ^ 48 := h16.trans (by norm_num)
  have hB53 : s.terapia + s.evolutiva < 2 ^ 53 := lt_of_le_of_lt h16 (by norm_num)
  have h3 := pct_lt_seventy hT (Nat.le_add_right _ _) hB
    (lt_of_le_of_lt h1 (by norm_num))
  have h4 := pct_lt_seventy hT (Nat.le_add_left _ _) hB
    (lt_of_le_of_lt h2 (by norm_num))
  refine ⟨s, hs, by exact_mod_cast h1, by exact_mod_cast h2, ?_⟩
  rw [hs, classify_confidence _ _ hT hB53, if_neg (not_le.2 h3), if_neg (not_le.2 h4)]
  simp

theorem complete_quiz_moderate_witness :
    accumulateScores quizConfig [("q1", "curious"), ("q2", "skills"), ("q3", "intensive")]
      = ScoreVector.toScores ⟨4, 9⟩ ∧
    exactShare 4 (4 + 9) ≤ 9 / 13 * 100 ∧ exactShare 9 (4 + 9) ≤ 9 / 13 * 100 ∧
    (classify (ScoreVector.toScores ⟨4, 9⟩)
      [("q1", "curious"), ("q2", "skills"), ("q3", "intensive")]).confidence = .moderate := by
  have hacc : accumulateScores quizConfig
      [("q1", "curious"), ("q2", "skills"), ("q3", "intensive")] = ScoreVector.toScores ⟨4, 9⟩ :=
    (accumulateScores_eq_sum quizConfig _ (by decide) (by decide)).trans
      (congrArg ScoreVector.toScores (by decide))
  obtain ⟨s, hs, h1, h2, h3⟩ :=
    complete_quiz_moderate [("q1", "curious"), ("q2", "skills"), ("q3", "intensive")]
      ⟨"curious", by decide, "skills", by decide, "intensive", by decide, List.Perm.refl _⟩
  have hs' : s = ⟨4, 9⟩ := toScores_injective (hs.symm.trans hacc)
  subst hs'
  rw [hacc] at h3
  exact ⟨hacc, h1, h2, h3⟩

theorem exactShare_sub {t e : Nat} (hT : 0 < t + e) :
    (exactShare t (t + e) - exactShare e (t + e)) * ((t + e : ℕ) : ℚ) = 100 * t - 100 * e := by
  rw [sub_mul, exactShare_mul hT, exactShare_mul hT]

theorem gap_lt_of {t e : Nat} (hT : 0 < t + e) (h1 : 10 * t < t + e + 10 * e)
    (h2 : 10 * e < t + e + 10 * t) :
    |exactShare t (t + e) - exactShare e (t + e)| < 10 := by
  have hTq : (0 : ℚ) < ((t + e : ℕ) : ℚ) := by exact_mod_cast hT
  have hs := exactShare_sub hT
  have h1q : (10 : ℚ) * t < ((t + e : ℕ) : ℚ) + 10 * e := by exact_mod_cast h1
  have h2q : (10 : ℚ) * e < ((t + e : ℕ) : ℚ) + 10 * t := by exact_mod_cast h2
  rw [abs_lt]
  constructor
  · refine lt_of_mul_lt_mul_right ?_ hTq.le
    rw [hs]
    linarith
  · refine lt_of_mul_lt_mul_right ?_ hTq.le
    rw [hs]
    linarith

theorem gap_gt_of {t e : Nat} (hT : 0 < t + e)
    (h : t + e + 10 * e < 10 * t ∨ t + e + 10 * t < 10 * e) :
    10 < |exactShare t (t + e) - exactShare e (t + e)| := by
  have hTq : (0 : ℚ) < ((t + e : ℕ) : ℚ) := by exact_mod_cast hT
  have hs := exactShare_sub hT
  rw [lt_abs]
  rcases h with h | h
  · left
    have hq : ((t + e : ℕ) : ℚ) + 10 * e < 10 * t := by exact_mod_cast h
    refine lt_of_mul_lt_mul_right ?_ hTq.le
    rw [hs]
    linarith
  · right
    have hq : ((t + e : ℕ) : ℚ) + 10 * t < 10 * e := by exact_mod_cast h
    refine lt_of_mul_lt_mul_right ?_ hTq.le
    rw [neg_mul, hs]
    linarith

theorem complete_gap :
    ∀ a1 ∈ optionsOf "q1", ∀ a2 ∈ optionsOf "q2", ∀ a3 ∈ optionsOf "q3",
      0 < (scoreSpec quizConfig [("q1", a1), ("q2", a2), ("q3", a3)]).terapia
          + (scoreSpec quizConfig [("q1", a1), ("q2", a2), ("q3", a3)]).evolutiva ∧
      (scoreSpec quizConfig [("q1", a1), ("q2", a2), ("q3", a3)]).terapia
          + (scoreSpec quizConfig [("q1", a1), ("q2", a2), ("q3", a3)]).evolutiva ≤ 16 ∧
      (((scoreSpec quizConfig [("q1", a1), ("q2", a2), ("q3", a3)]).terapia
            ≤ (scoreSpec quizConfig [("q1", a1), ("q2", a2), ("q3", a3)]).evolutiva + 1 ∧
          (scoreSpec quizConfig [("q1", a1), ("q2", a2), ("q3", a3)]).evolutiva
            ≤ (scoreSpec quizConfig [("q1", a1), ("q2", a2), ("q3", a3)]).terapia + 1) ∨
        (scoreSpec quizConfig [("q1", a1), ("q2", a2), ("q3", a3)]).evolutiva + 2
            ≤ (scoreSpec quizConfig [("q1", a1), ("q2", a2), ("q3", a3)]).terapia ∨
        (scoreSpec quizConfig [("q1", a1), ("q2", a2), ("q3", a3)]).terapia + 2
            ≤ (scoreSpec quizConfig [("q1", a1), ("q2", a2), ("q3", a3)]).evolutiva) ∧
      12 ≤ (scoreSpec quizConfig [("q1", a1), ("q2", a2), ("q3", a3)]).terapia
          + (scoreSpec quizConfig [("q1", a1), ("q2", a2), ("q3", a3)]).evolutiva := by
  decide

/-- C23: with the configured quiz and a complete answer set, the scores are integers and the
recommendation is `both` exactly when the two raw scores differ by at most 1; otherwise it is
the category with the larger raw score. -/
theorem complete_quiz_recommendation (quizData : QuizData) (hc : CompleteAnswers quizData) :
    ∃ s : ScoreVector, accumulateScores quizConfig quizData = s.toScores ∧
      (classify (accumulateScores quizConfig quizData) quizData).recommendation =
        if s.terapia ≤ s.evolutiva + 1 ∧ s.evolutiva ≤ s.terapia + 1 then .both
        else if s.evolutiva < s.terapia then .terapia
        else .evolutiva := by
  obtain ⟨s, hs, hT, h16, -, h12⟩ := forall_complete
    (fun s => 0 < s.terapia + s.evolutiva ∧ s.terapia + s.evolutiva ≤ 16 ∧
      ((s.terapia ≤ s.evolutiva + 1 ∧ s.evolutiva ≤ s.terapia + 1) ∨
        s.evolutiva + 2 ≤ s.terapia ∨ s.terapia + 2 ≤ s.evolutiva) ∧
      12 ≤ s.terapia + s.evolutiva) complete_gap hc
  refine ⟨s, hs, ?_⟩
  rw [hs]
  obtain ⟨t, e⟩ := s
  simp only at hT h16 h12 ⊢
  by_cases hclose : t ≤ e + 1 ∧ e ≤ t + 1
  · rw [if_pos hclose]
    have h1 : 10 * t < t + e + 10 * e := by omega
    have h2 : 10 * e < t + e + 10 * t := by omega
    exact (both_of_small_gap ⟨t, e⟩ quizData hT (h16.trans (by norm_num))
      (gap_lt_of hT h1 h2)).1
  · rw [if_neg hclose]
    have h1 : t + e + 10 * e < 10 * t ∨ t + e + 10 * t < 10 * e := by omega
    have hg : 10 < |exactShare t (t + e) - exactShare e (t + e)| := gap_gt_of hT h1
    exact recommendation_of_gap ⟨t, e⟩ quizData hT (lt_of_le_of_lt h16 (by norm_num)) hg.le

theorem complete_quiz_recommendation_witness :
    accumulateScores quizConfig [("q1", "stress"), ("q2", "performance"), ("q3", "light")]
      = ScoreVector.toScores ⟨7, 6⟩ ∧
    (classify (ScoreVector.toScores ⟨7, 6⟩)
      [("q1", "stress"), ("q2", "performance"), ("q3", "light")]).recommendation = .both := by
  have hacc : accumulateScores quizConfig
      [("q1", "stress"), ("q2", "performance"), ("q3", "light")] = ScoreVector.toScores ⟨7, 6⟩ :=
    (accumulateScores_eq_sum quizConfig _ (by decide) (by decide)).trans
      (congrArg ScoreVector.toScores (by decide))
  obtain ⟨s, hs, h⟩ :=
    complete_quiz_recommendation [("q1", "stress"), ("q2", "performance"), ("q3", "light")]
      ⟨"stress", by decide, "performance", by decide, "light", by decide, List.Perm.refl _⟩
  have hs' : s = ⟨7, 6⟩ := toScores_injective (hs.symm.trans hacc)
  subst hs'
  rw [hacc] at h
  exact ⟨hacc, h⟩

/-! ## The sum of the two displayed shares -/

theorem fract_half_of_abs {k : ℤ} {S : ℚ} (h : |(k : ℚ) - S| = 1 / 2) :
    Int.fract S = 1 / 2 := by
  rw [Int.fract_eq_iff]
  refine ⟨by norm_num, by norm_num, ?_⟩
  rcases abs_eq (by norm_num : (0 : ℚ) ≤ 1 / 2) |>.1 h with h1 | h1
  · exact ⟨k - 1, by push_cast; linarith⟩
  · exact ⟨k, by linarith⟩

theorem display_sum_of_not_half {t e : Nat} (hT : 0 < t + e) (hB : t + e ≤ 2 ^ 44)
    (hf : Int.fract (exactShare t (t + e)) ≠ 1 / 2) :
    ⌊pct t (t + e) + 1 / 2⌋ + ⌊pct e (t + e) + 1 / 2⌋ = 100 := by
  have h1 := round_pct_nearest hT (Nat.le_add_right t e) hB
  have h2 := round_pct_nearest hT (Nat.le_add_left e t) hB
  have hadd := exactShare_add (t := t) (e := e) hT
  generalize ⌊pct t (t + e) + 1 / 2⌋ = kt at h1 ⊢
  generalize ⌊pct e (t + e) + 1 / 2⌋ = ke at h2 ⊢
  have h1' : |(kt : ℚ) - exactShare t (t + e)| < 1 / 2 :=
    lt_of_le_of_ne h1 fun h => hf (fract_half_of_abs h)
  have h2' : |(ke : ℚ) - exactShare e (t + e)| < 1 / 2 := by
    refine lt_of_le_of_ne h2 fun h => hf ?_
    have h3 : |((100 - ke : ℤ) : ℚ) - exactShare t (t + e)| = 1 / 2 := by
      rw [← h, ← abs_neg]
      congr 1
      push_cast
      linarith
    exact fract_half_of_abs h3
  have h4 : |((kt + ke - 100 : ℤ) : ℚ)| < 1 := by
    have e1 : ((kt + ke - 100 : ℤ) : ℚ)
        = ((kt : ℚ) - exactShare t (t + e)) + ((ke : ℚ) - exactShare e (t + e)) := by
      push_cast
      linarith
    rw [e1]
    exact lt_of_le_of_lt (abs_add _ _) (by linarith)
  have h5 : |kt + ke - 100| < 1 := by exact_mod_cast h4
  have h6 := Int.abs_lt_one_iff.1 h5
  omega

theorem nearestWith_eq {L : ℕ} {x y : ℚ} (h : nearestWith L x = some y) : nearest x = y := by
  unfold nearestWith at h
  split_ifs at h with hb
  have hlog : Nat.log 2 ⌊x * 2 ^ 1074⌋₊ = L + 52 :=
    (Nat.log_eq_iff (Or.inl (by omega))).2 hb
  have hL : ulpExp x = L := by
    rw [ulpExp_eq, hlog]
    omega
  rw [← Option.some.inj h]
  unfold nearest
  rw [ulp_eq, hL]

theorem findSome_nearestWith {Ls : List ℕ} {x y : ℚ}
    (h : (Ls.findSome? fun L => nearestWith L x) = some y) : nearest x = y := by
  obtain ⟨L, -, hL⟩ := List.exists_of_findSome?_eq_some h
  exact nearestWith_eq hL

theorem pctWith_eq {Ls Ms : List ℕ} {score total : ℕ} {y : ℚ}
    (h : pctWith Ls Ms score total = some y) : pct score total = y := by
  unfold pctWith at h
  obtain ⟨r, hr, hy⟩ := Option.bind_eq_some.1 h
  unfold pct
  rw [findSome_nearestWith hr]
  exact findSome_nearestWith hy

theorem displayedSumWith_eq {score other : ℕ} {k : ℤ} (h : displayedSumWith score other = some k) :
    ⌊pct score 200 + 1 / 2⌋ + ⌊pct other 200 + 1 / 2⌋ = k := by
  unfold displayedSumWith at h
  obtain ⟨a, ha, h1⟩ := Option.bind_eq_some.1 h
  obtain ⟨b, hb, h2⟩ := Option.map_eq_some'.1 h1
  rw [pctWith_eq ha, pctWith_eq hb]
  exact h2

theorem half_shares_with :
    ∀ j < 50, displayedSumWith (2 * j + 1) (199 - 2 * j) = some 100 ∨
      displayedSumWith (2 * j + 1) (199 - 2 * j) = some 101 := by
  decide!

theorem half_shares_sum :
    ∀ j < 50, ⌊pct (2 * j + 1) 200 + 1 / 2⌋ + ⌊pct (199 - 2 * j) 200 + 1 / 2⌋ = 100 ∨
      ⌊pct (2 * j + 1) 200 + 1 / 2⌋ + ⌊pct (199 - 2 * j) 200 + 1 / 2⌋ = 101 := by
  intro j hj
  rcases half_shares_with j hj with h | h
  · exact Or.inl (displayedSumWith_eq h)
  · exact Or.inr (displayedSumWith_eq h)

theorem display_sum_of_half {t e : Nat} (hT : 0 < t + e)
    (hf : Int.fract (exactShare t (t + e)) = 1 / 2) :
    ⌊pct t (t + e) + 1 / 2⌋ + ⌊pct e (t + e) + 1 / 2⌋ = 100 ∨
      ⌊pct t (t + e) + 1 / 2⌋ + ⌊pct e (t + e) + 1 / 2⌋ = 101 := by
  have hTq : (0 : ℚ) < ((t + e : ℕ) : ℚ) := by exact_mod_cast hT
  have hadd := exactShare_add (t := t) (e := e) hT
  obtain ⟨-, -, z, hz⟩ := Int.fract_eq_iff.1 hf
  have h0 : (0 : ℚ) ≤ exactShare t (t + e) := by
    unfold exactShare
    positivity
  have h0' : (0 : ℚ) ≤ exactShare e (t + e) := by
    unfold exactShare
    positivity
  have hz0 : 0 ≤ z := by
    have : (-1 : ℚ) < z := by linarith
    have : (-1 : ℤ) < z := by exact_mod_cast this
    omega
  have hz99 : z ≤ 99 := by
    have : (z : ℚ) < 100 := by linarith
    have : z < 100 := by exact_mod_cast this
    omega
  obtain ⟨k, rfl⟩ := Int.eq_ofNat_of_zero_le hz0
  have hk : k ≤ 99 := by exact_mod_cast hz99
  have ht : exactShare t (t + e) = exactShare (2 * k + 1) 200 := by
    have : exactShare (2 * k + 1) 200 = (k : ℚ) + 1 / 2 := by
      unfold exactShare
      push_cast
      ring
    rw [this]
    push_cast at hz
    linarith
  have he : exactShare e (t + e) = exactShare (199 - 2 * k) 200 := by
    have : exactShare (199 - 2 * k) 200 = 99 - (k : ℚ) + 1 / 2 := by
      unfold exactShare
      rw [Nat.cast_sub (by omega)]
      push_cast
      ring
    rw [this]
    push_cast at hz
    linarith
  rw [pct_congr ht, pct_congr he]
  by_cases h50 : k < 50
  · exact half_shares_sum k h50
  · have h := half_shares_sum (99 - k) (by omega)
    have e1 : 2 * (99 - k) + 1 = 199 - 2 * k := by omega
    have e2 : 199 - 2 * (99 - k) = 2 * k + 1 := by omega
    rw [e1, e2, add_comm] at h
    exact h

/-- C25 (as amended): for integer scores with positive total at most `2 ^ 44` the two displayed
shares are integers whose sum is 100 or 101, and it is 101 only when the exact shares have
fractional part one half. -/
theorem displayed_sum (s : ScoreVector) (quizData : QuizData)
    (hT : 0 < s.terapia + s.evolutiva) (hB : s.terapia + s.evolutiva ≤ 2 ^ 44) :
    ∃ kt ke : ℤ, (classify s.toScores quizData).scores = ⟨.fin kt, .fin ke⟩ ∧
      (kt + ke = 100 ∨ kt + ke = 101) ∧
      (kt + ke = 101 → Int.fract (exactShare s.terapia (s.terapia + s.evolutiva)) = 1 / 2) := by
  refine ⟨_, _, classify_scores s quizData hT (lt_of_le_of_lt hB (by norm_num)), ?_, ?_⟩
  · by_cases hf : Int.fract (exactShare s.terapia (s.terapia + s.evolutiva)) = 1 / 2
    · exact display_sum_of_half hT hf
    · exact Or.inl (display_sum_of_not_half hT hB hf)
  · intro h101
    by_contra hf
    have h100 := display_sum_of_not_half hT hB hf
    omega

theorem displayed_sum_witness :
    ∃ kt ke : ℤ, (classify (ScoreVector.toScores ⟨5, 3⟩) []).scores = ⟨.fin kt, .fin ke⟩ ∧
      (kt + ke = 100 ∨ kt + ke = 101) ∧
      (kt + ke = 101 → Int.fract (exactShare 5 (5 + 3)) = 1 / 2) :=
  displayed_sum ⟨5, 3⟩ [] (by norm_num) (by norm_num)

/-- C25 (counterexample): scores 17 and 23 have exact shares 42.5 and 57.5, with fractional
part one half, but the displayed shares are 43 and 57, which sum to 100; scores 5 and 3
display 63 and 38. -/
theorem half_share_sum_hundred :
    Int.fract (exactShare 17 (17 + 23)) = 1 / 2 ∧
    (classify (ScoreVector.toScores ⟨17, 23⟩) []).scores = ⟨.fin 43, .fin 57⟩ ∧
    (classify (ScoreVector.toScores ⟨5, 3⟩) []).scores = ⟨.fin 63, .fin 38⟩ := by
  decide!

theorem complete_not_half :
    ∀ a1 ∈ optionsOf "q1", ∀ a2 ∈ optionsOf "q2", ∀ a3 ∈ optionsOf "q3",
      0 < (scoreSpec quizConfig [("q1", a1), ("q2", a2), ("q3", a3)]).terapia
          + (scoreSpec quizConfig [("q1", a1), ("q2", a2), ("q3", a3)]).evolutiva ∧
      (scoreSpec quizConfig [("q1", a1), ("q2", a2), ("q3", a3)]).terapia
          + (scoreSpec quizConfig [("q1", a1), ("q2", a2), ("q3", a3)]).evolutiva ≤ 16 ∧
      Int.fract (exactShare
          (scoreSpec quizConfig [("q1", a1), ("q2", a2), ("q3", a3)]).terapia
          ((scoreSpec quizConfig [("q1", a1), ("q2", a2), ("q3", a3)]).terapia
            + (scoreSpec quizConfig [("q1", a1), ("q2", a2), ("q3", a3)]).evolutiva))
        ≠ 1 / 2 := by
  decide!

/-- C24: with the configured quiz and a complete answer set, the two displayed shares are
integers that sum to exactly 100. -/
theorem complete_quiz_sum (quizData : QuizData) (hc : CompleteAnswers quizData) :
    ∃ kt ke : ℤ, (classify (accumulateScores quizConfig quizData) quizData).scores
        = ⟨.fin kt, .fin ke⟩ ∧ kt + ke = 100 := by
  obtain ⟨s, hs, hT, h16, hf⟩ := forall_complete
    (fun s => 0 < s.terapia + s.evolutiva ∧ s.terapia + s.evolutiva ≤ 16 ∧
      Int.fract (exactShare s.terapia (s.terapia + s.evolutiva)) ≠ 1 / 2) complete_not_half hc
  rw [hs]
  exact ⟨_, _, classify_scores s quizData hT (lt_of_le_of_lt h16 (by norm_num)),
    display_sum_of_not_half hT (h16.trans (by norm_num)) hf⟩

theorem complete_quiz_sum_witness :
    accumulateScores quizConfig [("q2", "performance"), ("q1", "blocked"), ("q3", "moderate")]
      = ScoreVector.toScores ⟨7, 9⟩ ∧
    ∃ kt ke : ℤ,
      (classify (ScoreVector.toScores ⟨7, 9⟩)
        [("q2", "performance"), ("q1", "blocked"), ("q3", "moderate")]).scores
        = ⟨.fin kt, .fin ke⟩ ∧ kt + ke = 100 := by
  have hacc : accumulateScores quizConfig
      [("q2", "performance"), ("q1", "blocked"), ("q3", "moderate")]
        = ScoreVector.toScores ⟨7, 9⟩ :=
    (accumulateScores_eq_sum quizConfig _ (by decide) (by decide)).trans
      (congrArg ScoreVector.toScores (by decide))
  have h := complete_quiz_sum [("q2", "performance"), ("q1", "blocked"), ("q3", "moderate")]
    ⟨"blocked", by decide, "performance", by decide, "moderate", by decide, by decide⟩
  rw [hacc] at h
  exact ⟨hacc, h⟩

/-! ## Symmetry between the two categories -/

theorem half_lt_nearest {n : ℕ} (hn : 0 < n) : (n : ℚ) / 2 < nearest (n : ℚ) := by
  have hn1 : (1 : ℚ) ≤ n := by exact_mod_cast hn
  have hx : (2 : ℚ) ^ 52 ≤ (n : ℚ) * 2 ^ 1074 := by
    have h1 : (2 : ℚ) ^ 52 ≤ 2 ^ 1074 := pow_le_pow_right₀ (by norm_num) (by norm_num)
    have h2 : (0 : ℚ) < 2 ^ 1074 := by positivity
    nlinarith
  have h1 := le_nearest (n : ℚ) hx
  have h2 := scaled_lt (n : ℚ)
  have h3 : (n : ℚ) < 2 ^ 53 * ulp (n : ℚ) := by
    rw [ulp_eq, mul_div_assoc', lt_div_iff₀ (by positivity)]
    exact h2
  have h4 : (2 : ℚ) ^ 53 = 2 * 2 ^ 52 := by norm_num
  rw [h4] at h3
  linarith

theorem roundDouble_of_le {x : ℚ} (h0 : 0 ≤ x) (h1 : x ≤ 1024) :
    roundDouble x = .fin (nearest x) := by
  have h1024 : nearest (1024 : ℚ) = 1024 := by
    have h := nearest_natCast (n := 1024) (by norm_num)
    exact_mod_cast h
  have h2 : nearest x ≤ 1024 := h1024 ▸ nearest_mono h0 h1
  have h3 : ¬ (2 : ℚ) ^ 1024 ≤ nearest x := by
    rw [not_le]
    calc nearest x ≤ 1024 := h2
      _ = 2 ^ 10 := by norm_num
      _ < 2 ^ 1024 := pow_lt_pow_right₀ (by norm_num) (by norm_num)
  unfold roundDouble
  rw [if_neg (not_lt.2 h0), if_neg h3]

/-- For a positive total, however large, the computed percentage is a finite number. -/
theorem percentage_fin {x n : ℕ} (hx : x ≤ n) (hn : 0 < n) :
    ∃ a : ℚ, percentage (JSNum.ofNat x) (roundDouble (n : ℚ)) = .fin a := by
  have hn0 : ¬ (n : ℚ) < 0 := not_lt.2 (Nat.cast_nonneg n)
  have hhalf := half_lt_nearest hn
  have hnq : (0 : ℚ) < n := by exact_mod_cast hn
  have hxq : (x : ℚ) ≤ n := by exact_mod_cast hx
  unfold roundDouble
  rw [if_neg hn0]
  split_ifs with hinf
  · refine ⟨nearest (0 * 100), ?_⟩
    simp only [percentage, JSNum.ofNat, JSNum.div, JSNum.mul]
    exact roundDouble_of_le (by norm_num) (by norm_num)
  · have hT : (0 : ℚ) < nearest (n : ℚ) := by linarith
    have hq0 : (0 : ℚ) ≤ (x : ℚ) / nearest (n : ℚ) := by positivity
    have hq2 : (x : ℚ) / nearest (n : ℚ) ≤ 2 := by
      rw [div_le_iff₀ hT]
      linarith
    have h2 : nearest (2 : ℚ) = 2 := by
      have h := nearest_natCast (n := 2) (by norm_num)
      exact_mod_cast h
    have hr0 : (0 : ℚ) ≤ nearest ((x : ℚ) / nearest (n : ℚ)) := nearest_nonneg hq0
    have hr2 : nearest ((x : ℚ) / nearest (n : ℚ)) ≤ 2 := h2 ▸ nearest_mono hq0 hq2
    refine ⟨nearest (nearest ((x : ℚ) / nearest (n : ℚ)) * 100), ?_⟩
    simp only [percentage, JSNum.ofNat, JSNum.div, if_neg hT.ne']
    rw [roundDouble_of_le hq0 (by linarith)]
    simp only [JSNum.mul, Nat.cast_ofNat]
    exact roundDouble_of_le (by positivity) (by linarith)

theorem abs_roundDouble_neg (d : ℚ) : (roundDouble (-d)).abs = (roundDouble d).abs := by
  unfold roundDouble
  rcases lt_trichotomy d 0 with h | h | h
  · have h' : ¬ -d < 0 := by linarith
    rw [if_neg h', if_pos h]
    split_ifs <;> simp [JSNum.abs]
  · subst h
    simp
  · have h' : -d < 0 := by linarith
    have h'' : ¬ d < 0 := by linarith
    rw [if_pos h', if_neg h'', neg_neg]
    split_ifs <;> simp [JSNum.abs]

theorem closeMatch_comm (x y : JSNum) : closeMatch x y = closeMatch y x := by
  have h : (x.sub y).abs = (y.sub x).abs := by
    rcases x with _ | _ | _ | a <;> rcases y with _ | _ | _ | b <;> first | rfl | skip
    show (roundDouble (a - b)).abs = (roundDouble (b - a)).abs
    have hneg : b - a = -(a - b) := by ring
    rw [hneg, abs_roundDouble_neg]
  unfold closeMatch
  rw [h]

theorem closeMatch_self (a : ℚ) : closeMatch (.fin a) (.fin a) = true := by
  have h0 : roundDouble (0 : ℚ) = .fin 0 := by
    rw [roundDouble_of_le le_rfl (by norm_num), nearest_zero]
  simp [closeMatch, JSNum.sub, h0, JSNum.abs, JSNum.le, JSNum.ofNat]

/-- The decision for two finite percentages in exchanged order. -/
theorem recommend_swap (a b : ℚ) :
    (recommend (.fin b) (.fin a)).1 = (recommend (.fin a) (.fin b)).1.swap ∧
    (recommend (.fin b) (.fin a)).2.1 = (recommend (.fin a) (.fin b)).2.1 := by
  unfold recommend
  rw [closeMatch_comm (.fin b) (.fin a)]
  by_cases hc : closeMatch (.fin a) (.fin b) = true
  · simp only [hc, if_true, Recommendation.swap, and_self]
  · have hne : a ≠ b := by
      rintro rfl
      exact hc (closeMatch_self a)
    simp only [hc, Bool.false_eq_true, if_false, JSNum.gt, decide_eq_true_eq]
    rcases lt_or_gt_of_ne hne with hlt | hgt
    · simp only [if_pos hlt, if_neg (not_lt.2 hlt.le), Recommendation.swap, and_self]
    · simp only [if_pos hgt, if_neg (not_lt.2 hgt.le), Recommendation.swap, and_self]

/-- C26: for integer scores with positive total, exchanging the terapia and evolutiva scores
exchanges `terapia` and `evolutiva` in the recommendation (`both` stays `both`), keeps the
confidence and exchanges the two displayed shares. -/
theorem classify_swap (s : ScoreVector) (quizData : QuizData)
    (hT : 0 < s.terapia + s.evolutiva) :
    (classify s.toScores.swap quizData).recommendation
      = (classify s.toScores quizData).recommendation.swap ∧
    (classify s.toScores.swap quizData).confidence = (classify s.toScores quizData).confidence ∧
    (classify s.toScores.swap quizData).scores = (classify s.toScores quizData).scores.swap := by
  obtain ⟨t, e⟩ := s
  simp only at hT
  have htot : (JSNum.ofNat t).add (JSNum.ofNat e) = roundDouble ((t + e : ℕ) : ℚ) := by
    simp only [JSNum.ofNat, JSNum.add, Nat.cast_add]
  have htot' : (JSNum.ofNat e).add (JSNum.ofNat t) = roundDouble ((t + e : ℕ) : ℚ) := by
    simp only [JSNum.ofNat, JSNum.add, Nat.cast_add, add_comm]
  obtain ⟨a, ha⟩ := percentage_fin (Nat.le_add_right t e) hT
  obtain ⟨b, hb⟩ := percentage_fin (Nat.le_add_left e t) hT
  have hr := recommend_swap a b
  simp only [classify, ScoreVector.toScores, Scores.swap, htot, htot', ha, hb,
    ResultScores.swap, and_true]
  exact hr

theorem classify_swap_witness :
    (classify (ScoreVector.toScores ⟨7, 3⟩).swap []).recommendation
      = (classify (ScoreVector.toScores ⟨7, 3⟩) []).recommendation.swap ∧
    (classify (ScoreVector.toScores ⟨7, 3⟩).swap []).confidence
      = (classify (ScoreVector.toScores ⟨7, 3⟩) []).confidence ∧
    (classify (ScoreVector.toScores ⟨7, 3⟩).swap []).scores
      = (classify (ScoreVector.toScores ⟨7, 3⟩) []).scores.swap :=
  classify_swap ⟨7, 3⟩ [] (by norm_num)

end QuizSystem

/-! ## Accessibility panel: persistence of the settings -/

namespace AccessibilityPanel

/-- C19 (failing input): on a fresh panel `toggleFeature('increaseFont')` turns the larger font
on, but it sets `state.increaseFont` while `saveSettings` reads `state.increasedFont`; the
stored record has all four flags false and a new `init` does not turn the feature on again.
The other three features do come back. -/
theorem increased_font_not_restored :
    (toggleFeature (init false none) "increaseFont").map
      (fun p => featureOn p "increaseFont") = some true ∧
    storedAfterToggle "increaseFont"
      = some [("focusMode", false), ("dyslexicFont", false), ("warmContrast", false),
          ("increasedFont", false)] ∧
    featureOn (init false (storedAfterToggle "increaseFont")) "increaseFont" = false ∧
    featureOn (init false (storedAfterToggle "focusMode")) "focusMode" = true ∧
    featureOn (init false (storedAfterToggle "dyslexicFont")) "dyslexicFont" = true ∧
    featureOn (init false (storedAfterToggle "warmContrast")) "warmContrast" = true := by
  decide

end AccessibilityPanel

/-! ## Booking form: the date must not lie before today -/

namespace BookingSystem

theorem validateField_today (required : Bool) (now offset midnightOffset : Int)
    (h : 0 ≤ midnightOffset) :
    validateField ⟨required, some (localDay now offset)⟩ now offset midnightOffset
      = (true, none) := by
  have hlt : ¬ selectedDate (localDay now offset) < today now offset midnightOffset := by
    unfold selectedDate today
    omega
  simp [validateField, hlt]

theorem validateField_past (required : Bool) (day now offset midnightOffset : Int)
    (hday : day < localDay now offset) (h : midnightOffset < msPerDay) :
    validateField ⟨required, some day⟩ now offset midnightOffset = (false, some .futureDate) := by
  have hlt : selectedDate day < today now offset midnightOffset := by
    unfold selectedDate today msPerDay at *
    nlinarith
  simp [validateField, hlt]

/-- C20 (failing input): on 6 November 2026 at 11:00 in Rome (UTC+1) a required date field
holding 2026-11-06, the day itself, is accepted without any message; only days before today
are refused. -/
theorem today_is_accepted :
    localDay 1793959200000 3600000 = 20763 ∧
    validateField ⟨true, some 20763⟩ 1793959200000 3600000 3600000 = (true, none) ∧
    validateField ⟨true, some 20762⟩ 1793959200000 3600000 3600000
      = (false, some .futureDate) := by
  decide

end BookingSystem

/-! ## Accessibility panel: reset of all settings -/

namespace AccessibilityPanel

theorem flag_setFlag_self (l : Flags) (k : String) (v : Bool) : flag (setFlag l k v) k = v := by
  induction l with
  | nil => simp [setFlag, flag, List.lookup]
  | cons p rest ih =>
    obtain ⟨k', v'⟩ := p
    by_cases h : k' = k
    · subst h
      simp [setFlag, flag, List.lookup]
    · have hb : (k' == k) = false := by simpa using h
      have hb' : (k == k') = false := by simpa using fun h' => h h'.symm
      simp only [setFlag, hb, Bool.false_eq_true, if_false, flag, List.lookup, hb']
      exact ih

theorem flag_setFlag_of_ne (l : Flags) (k : String) (v : Bool) {k' : String} (hne : k' ≠ k) :
    flag (setFlag l k v) k' = flag l k' := by
  induction l with
  | nil =>
    have hb : (k' == k) = false := by simpa using hne
    simp [setFlag, flag, List.lookup, hb]
  | cons p rest ih =>
    obtain ⟨k₀, v₀⟩ := p
    by_cases h : k₀ = k
    · subst h
      have hb : (k' == k₀) = false := by simpa using hne
      simp [setFlag, flag, List.lookup, hb]
    · have hb : (k₀ == k) = false := by simpa using h
      simp only [setFlag, hb, Bool.false_eq_true, if_false, flag, List.lookup]
      by_cases h2 : k' = k₀
      · subst h2
        simp
      · have hb2 : (k' == k₀) = false := by simpa using h2
        simp only [hb2]
        exact ih

theorem flag_eq_false_of_not_mem {l : Flags} {k : String} (h : k ∉ l.map Prod.fst) :
    flag l k = false := by
  cases hl : l.lookup k with
  | none => simp [flag, hl]
  | some v => exact absurd (List.mem_map_of_mem Prod.fst (QuizSystem.mem_of_lookup hl)) h

theorem panelInvariant_activate {p p' : Panel} {k : String} (h : PanelInvariant p)
    (ha : activateFeature p k = some p') : PanelInvariant p' := by
  unfold activateFeature at ha
  split_ifs at ha with hk
  cases ha
  obtain ⟨h1, h2⟩ := h
  constructor
  · intro k' hk'
    by_cases he : k' = k
    · exact Or.inl (he ▸ hk)
    · exact h1 k' (by simpa [flag_setFlag_of_ne _ _ _ he] using hk')
  · intro k' hk'
    by_cases he : k' = k
    · subst he
      exact flag_setFlag_self _ _ _
    · have hk2 : flag p.active k' = true := by simpa [flag_setFlag_of_ne _ _ _ he] using hk'
      simpa [flag_setFlag_of_ne _ _ _ he] using h2 k' hk2

theorem panelInvariant_deactivate {p p' : Panel} {k : String} (h : PanelInvariant p)
    (ha : deactivateFeature p k = some p') :
    PanelInvariant p' ∧ flag p'.state k = false ∧
    (∀ k', k' ≠ k → flag p'.state k' = flag p.state k') ∧ p'.storage = p.storage := by
  unfold deactivateFeature at ha
  split_ifs at ha with hk
  cases ha
  obtain ⟨h1, h2⟩ := h
  refine ⟨⟨?_, ?_⟩, flag_setFlag_self _ _ _, fun k' he => flag_setFlag_of_ne _ _ _ he, rfl⟩
  · intro k' hk'
    by_cases he : k' = k
    · exact Or.inl (he ▸ hk)
    · exact h1 k' (by simpa [flag_setFlag_of_ne _ _ _ he] using hk')
  · intro k' hk'
    by_cases he : k' = k
    · subst he
      have := flag_setFlag_self p.active k' false
      simp only at hk'
      rw [this] at hk'
      exact absurd hk' (by simp)
    · have hk2 : flag p.active k' = true := by simpa [flag_setFlag_of_ne _ _ _ he] using hk'
      simpa [flag_setFlag_of_ne _ _ _ he] using h2 k' hk2

theorem panelInvariant_saveSettings {p : Panel} (h : PanelInvariant p) :
    PanelInvariant (saveSettings p) := h

theorem panelInvariant_toggle {p p' : Panel} {k : String} (h : PanelInvariant p)
    (ht : toggleFeature p k = some p') : PanelInvariant p' := by
  unfold toggleFeature at ht
  split_ifs at ht with hk hact
  · obtain ⟨q, hq, rfl⟩ := Option.map_eq_some'.1 ht
    exact panelInvariant_saveSettings (panelInvariant_deactivate h hq).1
  · obtain ⟨q, hq, rfl⟩ := Option.map_eq_some'.1 ht
    exact panelInvariant_saveSettings (panelInvariant_activate h hq)

theorem panelInvariant_getD_activate {p : Panel} (h : PanelInvariant p) (k : String) :
    PanelInvariant ((activateFeature p k).getD p) := by
  cases ha : activateFeature p k with
  | none => exact h
  | some q => exact panelInvariant_activate h ha

theorem panelInvariant_loadSettings {p : Panel} (h : PanelInvariant p) :
    PanelInvariant (loadSettings p) := by
  unfold loadSettings
  cases hs : p.storage with
  | none => exact h
  | some settings =>
    simp only
    generalize settings.map Prod.fst = keys
    induction keys generalizing p with
    | nil => exact h
    | cons key rest ih =>
      simp only [List.foldl_cons]
      split_ifs
      · have h' := panelInvariant_getD_activate h key
        have hst : ((activateFeature p key).getD p).storage = some settings := by
          unfold activateFeature
          split_ifs <;> simpa using hs
        exact ih h' hst
      · exact ih h hs

theorem panelInvariant_init (reducedMotion : Bool) (storage : Option Flags) :
    PanelInvariant (init reducedMotion storage) := by
  have hfresh : PanelInvariant
      { state := [("isOpen", false), ("focusMode", false), ("dyslexicFont", false),
          ("warmContrast", false), ("increasedFont", false)]
        active := buttonKeys.map fun k => (k, false)
        bodyClasses := []
        storage := storage } := by
    constructor
    · intro k hk
      exfalso
      cases hl : List.lookup k [("isOpen", false), ("focusMode", false), ("dyslexicFont", false),
          ("warmContrast", false), ("increasedFont", false)] with
      | none => simp [flag, hl] at hk
      | some v =>
        have hm := QuizSystem.mem_of_lookup hl
        have hv : v = true := by simpa [flag, hl] using hk
        subst hv
        simp at hm
    · intro k hk
      exfalso
      cases hl : List.lookup k (buttonKeys.map fun k => (k, false)) with
      | none => simp [flag, hl] at hk
      | some v =>
        have hm := QuizSystem.mem_of_lookup hl
        have hv : v = true := by simpa [flag, hl] using hk
        subst hv
        simp [buttonKeys] at hm
  unfold init
  simp only
  split_ifs
  · exact panelInvariant_loadSettings (panelInvariant_getD_activate hfresh _)
  · exact panelInvariant_loadSettings hfresh

theorem panelInvariant_foldlM (features : List String) (p p' : Panel) (h : PanelInvariant p)
    (hr : features.foldlM toggleFeature p = some p') : PanelInvariant p' := by
  induction features generalizing p with
  | nil =>
    simp only [List.foldlM_nil] at hr
    cases hr
    exact h
  | cons f rest ih =>
    simp only [List.foldlM_cons] at hr
    cases ht : toggleFeature p f with
    | none => simp [ht] at hr
    | some q =>
      rw [ht] at hr
      exact ih q (panelInvariant_toggle h ht) hr

theorem not_isOpen_of_mem_buttonKeys {k : String} (h : k ∈ buttonKeys) : k ≠ "isOpen" := by
  rintro rfl
  exact absurd h (by decide)

theorem resetLoop (keys : List String) (p : Panel) (h : PanelInvariant p) :
    ∃ p', keys.foldlM
        (fun p key =>
          if flag p.state key && key != "isOpen" then deactivateFeature p key else some p) p
        = some p' ∧
      PanelInvariant p' ∧ p'.storage = p.storage ∧
      (∀ k, flag p.state k = false → flag p'.state k = false) ∧
      (∀ k ∈ keys, k ≠ "isOpen" → flag p'.state k = false) := by
  induction keys generalizing p with
  | nil => exact ⟨p, rfl, h, rfl, fun _ hk => hk, fun _ hk => absurd hk (List.not_mem_nil _)⟩
  | cons key rest ih =>
    simp only [List.foldlM_cons]
    by_cases hc : (flag p.state key && key != "isOpen") = true
    · have hflag : flag p.state key = true := by
        simp only [Bool.and_eq_true] at hc
        exact hc.1
      have hne : key ≠ "isOpen" := by
        simp only [Bool.and_eq_true, bne_iff_ne] at hc
        exact hc.2
      have hmem : key ∈ buttonKeys := (h.1 key hflag).resolve_right hne
      have hd : deactivateFeature p key = some
          { p with
            bodyClasses := match bodyClass key with
              | some c => p.bodyClasses.erase c
              | none => p.bodyClasses
            active := setFlag p.active key false
            state := setFlag p.state key false } := by
        unfold deactivateFeature
        exact if_pos hmem
      obtain ⟨hinv, hself, hother, hsto⟩ := panelInvariant_deactivate h hd
      obtain ⟨p', hp', hinv', hsto', hkeep, hrest⟩ := ih _ hinv
      refine ⟨p', ?_, hinv', hsto'.trans hsto, ?_, ?_⟩
      · rw [if_pos hc, hd]
        exact hp'
      · intro k hk
        apply hkeep
        by_cases he : k = key
        · rw [he]
          exact hself
        · rw [hother k he]
          exact hk
      · intro k hk hki
        rcases List.mem_cons.1 hk with he | he
        · rw [he]
          exact hkeep key hself
        · exact hrest k he hki
    · obtain ⟨p', hp', hinv', hsto', hkeep, hrest⟩ := ih p h
      refine ⟨p', ?_, hinv', hsto', hkeep, ?_⟩
      · rw [if_neg hc]
        exact hp'
      · intro k hk hki
        rcases List.mem_cons.1 hk with he | he
        · subst he
          apply hkeep
          have : ¬ (flag p.state k = true ∧ (k != "isOpen") = true) := by
            simpa [Bool.and_eq_true] using hc
          by_contra hf
          exact this ⟨by simpa using hf, by simpa using hki⟩
        · exact hrest k he hki

/-- C21: from any panel reached by `init` and `toggleFeature` calls, `resetAll` completes
without raising; afterwards every flag of `this.state` other than `isOpen` is false, every
feature button is inactive, and the saved settings have all four flags false. -/
theorem resetAll_clears (reducedMotion : Bool) (storage : Option Flags)
    (features : List String) (p : Panel)
    (h : runPanel reducedMotion storage features = some p) :
    ∃ p', resetAll p = some p' ∧
      (∀ k, k ≠ "isOpen" → flag p'.state k = false) ∧
      (∀ k ∈ buttonKeys, flag p'.active k = false) ∧
      p'.storage = some [("focusMode", false), ("dyslexicFont", false),
        ("warmContrast", false), ("increasedFont", false)] := by
  have hinv : PanelInvariant p :=
    panelInvariant_foldlM features _ p (panelInvariant_init reducedMotion storage) h
  obtain ⟨q, hq, hqinv, -, hkeep, hkeys⟩ := resetLoop (p.state.map Prod.fst) p hinv
  have hall : ∀ k, k ≠ "isOpen" → flag q.state k = false := by
    intro k hk
    by_cases hm : k ∈ p.state.map Prod.fst
    · exact hkeys k hm hk
    · exact hkeep k (flag_eq_false_of_not_mem hm)
  refine ⟨saveSettings q, ?_, hall, ?_, ?_⟩
  · unfold resetAll
    rw [hq]
    rfl
  · intro k hk
    have hs := hall k (not_isOpen_of_mem_buttonKeys hk)
    cases ha : flag q.active k with
    | false => exact ha
    | true =>
      have := hqinv.2 k ha
      rw [hs] at this
      exact absurd this (by simp)
  · show some _ = some _
    rw [hall "focusMode" (by decide), hall "dyslexicFont" (by decide),
      hall "warmContrast" (by decide), hall "increasedFont" (by decide)]

end AccessibilityPanel

namespace AccessibilityPanel

theorem resetAll_clears_witness :
    ∃ p', resetAll
        { state := [("isOpen", false), ("focusMode", false), ("dyslexicFont", false),
            ("warmContrast", true), ("increasedFont", false), ("increaseFont", true)]
          active := [("focusMode", false), ("dyslexicFont", false), ("warmContrast", true),
            ("increaseFont", true)]
          bodyClasses := ["increased-font", "warm-contrast"]
          storage := some [("focusMode", false), ("dyslexicFont", false),
            ("warmContrast", true), ("increasedFont", false)] } = some p' ∧
      (∀ k, k ≠ "isOpen" → flag p'.state k = false) ∧
      (∀ k ∈ buttonKeys, flag p'.active k = false) ∧
      p'.storage = some [("focusMode", false), ("dyslexicFont", false),
        ("warmContrast", false), ("increasedFont", false)] :=
  resetAll_clears false none ["increaseFont", "warmContrast"] _ (by decide)

end AccessibilityPanel

/-! ## Step bounds of the two wizards -/

namespace BookingSystem

theorem stepBounds_init : 1 ≤ init.currentStep ∧ init.currentStep ≤ init.totalSteps := by
  decide

theorem stepBounds_step (s : BookingState)
    (h : 1 ≤ s.currentStep ∧ s.currentStep ≤ s.totalSteps) (e : Event) :
    1 ≤ (step s e).currentStep ∧ (step s e).currentStep ≤ (step s e).totalSteps ∧
      (step s e).totalSteps = s.totalSteps := by
  obtain ⟨h1, h2⟩ := h
  cases e with
  | openModal =>
    simp only [step, openModal, resetForm]
    split_ifs <;> simp <;> omega
  | nextStep fieldResults entries =>
    simp only [step, nextStep, saveCurrentStepData]
    split_ifs <;> simp <;> omega
  | prevStep =>
    simp only [step, prevStep]
    split_ifs <;> simp <;> omega
  | resetForm =>
    simp only [step, resetForm]
    simp
    omega
  | submitBooking fieldResults entries =>
    simp only [step, submitBooking, saveCurrentStepData]
    split_ifs <;> simp <;> omega

theorem stepBounds_foldl (events : List Event) (s : BookingState)
    (h : 1 ≤ s.currentStep ∧ s.currentStep ≤ s.totalSteps) :
    1 ≤ (events.foldl step s).currentStep ∧
      (events.foldl step s).currentStep ≤ (events.foldl step s).totalSteps := by
  induction events generalizing s with
  | nil => exact h
  | cons e rest ih =>
    have h' := stepBounds_step s h e
    exact ih _ ⟨h'.1, h'.2.1⟩

/-- C27: in both wizards the step counter stays between 1 and `totalSteps` in every state
reached from `init` by `nextStep`, `prevStep`, `openModal` and the reset (and the submit)
methods; in any state `nextStep` at the last step and `prevStep` at the first step leave the
counter as it is, and `nextStep` changes nothing when the current step fails validation. -/
theorem step_bounds (quizEvents : List QuizSystem.Event) (bookingEvents : List Event) :
    (1 ≤ (QuizSystem.run quizEvents).currentStep ∧
      (QuizSystem.run quizEvents).currentStep ≤ (QuizSystem.run quizEvents).totalSteps) ∧
    (1 ≤ (run bookingEvents).currentStep ∧
      (run bookingEvents).currentStep ≤ (run bookingEvents).totalSteps) ∧
    (∀ (s : QuizSystem.QuizState) (selectedOption : Option String),
      s.currentStep = s.totalSteps →
        (QuizSystem.nextStep s selectedOption).currentStep = s.currentStep) ∧
    (∀ (s : BookingState) (fieldResults : List Bool) (entries : List (String × String)),
      s.currentStep = s.totalSteps →
        (nextStep s fieldResults entries).currentStep = s.currentStep) ∧
    (∀ s : QuizSystem.QuizState, s.currentStep = 1 →
      (QuizSystem.prevStep s).currentStep = s.currentStep) ∧
    (∀ s : BookingState, s.currentStep = 1 → (prevStep s).currentStep = s.currentStep) ∧
    (∀ s : QuizSystem.QuizState, QuizSystem.nextStep s none = s) ∧
    (∀ (s : BookingState) (fieldResults : List Bool) (entries : List (String × String)),
      validateCurrentStep fieldResults = false → nextStep s fieldResults entries = s) := by
  refine ⟨?_, stepBounds_foldl bookingEvents init stepBounds_init, ?_, ?_, ?_, ?_, ?_, ?_⟩
  · obtain ⟨h1, h3, ht, -⟩ := QuizSystem.wizardInvariant_run quizEvents
    exact ⟨h1, ht ▸ h3⟩
  · intro s o hlast
    cases o with
    | none => rfl
    | some v =>
      simp only [QuizSystem.nextStep, QuizSystem.validateCurrentStep, Option.isSome_some,
        if_true]
      have hc : (QuizSystem.saveCurrentStepData s (some v)).currentStep = s.currentStep := rfl
      have ht : (QuizSystem.saveCurrentStepData s (some v)).totalSteps = s.totalSteps := rfl
      rw [if_neg (by rw [hc, ht, hlast]; exact lt_irrefl _)]
      exact hc
  · intro s fieldResults entries hlast
    simp only [nextStep]
    split_ifs with hv hlt
    · exact absurd hlt (by
        show ¬ s.currentStep < s.totalSteps
        rw [hlast]
        exact lt_irrefl _)
    · rfl
    · rfl
  · intro s h1
    simp only [QuizSystem.prevStep]
    rw [if_neg (by omega)]
  · intro s h1
    simp only [prevStep]
    rw [if_neg (by omega)]
  · intro s
    rfl
  · intro s fieldResults entries hv
    simp only [nextStep, hv]
    rfl

end BookingSystem
